import Mathlib

/-!
Verification of the funding-rate analytics engine of this repository.

The repository serves event-study queries over three fact streams
(funding events, minute returns, open-interest snapshots) stored in
PostgreSQL.  `src/backend/app.py` runs the raw-fact ("slow path") SQL
queries QUERY_1 .. QUERY_10; `src/backend/main.py` additionally serves
materialized-view backed "fast path" variants and verbatim slow
variants; `src/python/load_data.py` ingests the facts with
`ON CONFLICT (symbol, ts) DO NOTHING`.

This file shallowly embeds those queries and the ingestion layer over
lists of rows.  Timestamps are integers counting minutes (the SQL
intervals 30 minutes / 60 minutes / 1 hour / 1 day / 14 days become the
constants 30, 60, 60, 1440, 20160); numeric fields are rationals.
`STDDEV_SAMP` is embedded by `stddevSampVar`, which returns the sample
variance rather than its square root: the square root is strictly
monotone on nonnegative values, so definedness (NULL for fewer than two
samples) and every order comparison made by the queries coincide with
the source; no claim below depends on the absolute magnitude of a
standard deviation.
-/

/-- A row of the `funding` table: `funding(symbol, ts, rate)`. -/
structure FundingRow where
  sym : String
  ts : Int
  rate : ℚ
deriving DecidableEq

/-- A row of the `minute_returns` table: `minute_returns(symbol, ts, r1m)`. -/
structure ReturnRow where
  sym : String
  ts : Int
  r1m : ℚ
deriving DecidableEq

/-- A row of the `open_interest` table: `open_interest(symbol, ts, oi)`. -/
structure OiRow where
  sym : String
  ts : Int
  oi : ℚ
deriving DecidableEq

/-- A row of the `klines` table; only the columns used by the embedded
queries and by the loader are kept, in the loader's column order. -/
structure KlineRow where
  sym : String
  openTime : Int
  openPrice : ℚ
  highPrice : ℚ
  lowPrice : ℚ
  closePrice : ℚ
  volume : ℚ
  numberOfTrades : Int
deriving DecidableEq

/-- The database state: the `symbols` table plus the fact tables. -/
structure Db where
  symbols : List String
  funding : List FundingRow
  minuteReturns : List ReturnRow
  openInterest : List OiRow
  klines : List KlineRow
deriving DecidableEq

/-- `DATE(ts)`: the calendar day of a minute timestamp (floor division
by the 1440 minutes of a day). -/
def dateOf (t : Int) : Int := t.fdiv 1440

/-- `EXTRACT(HOUR FROM ts)` for a minute timestamp. -/
def hourOf (t : Int) : Int := (t.emod 1440).ediv 60

/-- List filter on a decidable proposition, used to embed SQL `WHERE`
clauses and join conditions. -/
def sqlFilter (p : α → Prop) [DecidablePred p] : List α → List α
  | [] => []
  | a :: l => if p a then a :: sqlFilter p l else sqlFilter p l

theorem mem_sqlFilter (p : α → Prop) [DecidablePred p] (l : List α) (x : α) :
    x ∈ sqlFilter p l ↔ x ∈ l ∧ p x := by
  induction l with
  | nil => simp [sqlFilter]
  | cons a l ih =>
    by_cases h : p a
    · rw [sqlFilter, if_pos h]
      simp only [List.mem_cons, ih]
      constructor
      · rintro (rfl | ⟨hx, hp⟩)
        · exact ⟨Or.inl rfl, h⟩
        · exact ⟨Or.inr hx, hp⟩
      · rintro ⟨rfl | hx, hp⟩
        · exact Or.inl rfl
        · exact Or.inr ⟨hx, hp⟩
    · rw [sqlFilter, if_neg h]
      simp only [List.mem_cons, ih]
      constructor
      · rintro ⟨hx, hp⟩
        exact ⟨Or.inr hx, hp⟩
      · rintro ⟨rfl | hx, hp⟩
        · exact absurd hp h
        · exact ⟨hx, hp⟩

theorem sqlFilter_sublist (p : α → Prop) [DecidablePred p] (l : List α) :
    (sqlFilter p l).Sublist l := by
  induction l with
  | nil => simp [sqlFilter]
  | cons a l ih =>
    by_cases h : p a
    · rw [sqlFilter, if_pos h]
      exact ih.cons_cons a
    · rw [sqlFilter, if_neg h]
      exact ih.cons a

theorem length_sqlFilter_le (p : α → Prop) [DecidablePred p] (l : List α) :
    (sqlFilter p l).length ≤ l.length :=
  (sqlFilter_sublist p l).length_le

theorem sqlFilter_eq_nil (p : α → Prop) [DecidablePred p] (l : List α)
    (h : ∀ x ∈ l, ¬ p x) : sqlFilter p l = [] := by
  induction l with
  | nil => simp [sqlFilter]
  | cons a l ih =>
    have ha : ¬ p a := h a (List.mem_cons_self a l)
    simp [sqlFilter, ha]
    exact ih fun x hx => h x (List.mem_cons_of_mem a hx)

/-- First-occurrence deduplication, embedding SQL `DISTINCT` and the
key extraction of `GROUP BY`. -/
def dedupFirst [DecidableEq α] : List α → List α
  | [] => []
  | a :: l => a :: dedupFirst (sqlFilter (fun x => x ≠ a) l)
termination_by l => l.length
decreasing_by
  simpa using Nat.lt_succ_of_le (length_sqlFilter_le _ l)

theorem mem_dedupFirst [DecidableEq α] (l : List α) (x : α) :
    x ∈ dedupFirst l ↔ x ∈ l := by
  induction l using dedupFirst.induct with
  | case1 => simp [dedupFirst]
  | case2 a l ih =>
    rw [dedupFirst]
    by_cases hx : x = a
    · subst hx
      simp
    · simp only [List.mem_cons, ih, mem_sqlFilter]
      constructor
      · rintro (rfl | ⟨hx2, _⟩)
        · exact Or.inl rfl
        · exact Or.inr hx2
      · rintro (rfl | hx2)
        · exact Or.inl rfl
        · exact Or.inr ⟨hx2, hx⟩

theorem nodup_dedupFirst [DecidableEq α] (l : List α) :
    (dedupFirst l).Nodup := by
  induction l using dedupFirst.induct with
  | case1 => simp [dedupFirst]
  | case2 a l ih =>
    rw [dedupFirst]
    refine List.nodup_cons.2 ⟨?_, ih⟩
    intro hmem
    have h1 := (mem_dedupFirst _ a).1 hmem
    have h2 := (mem_sqlFilter _ _ a).1 h1
    exact h2.2 rfl

/-- SQL `GROUP BY`: the distinct keys of `l` under `key`, each paired
with the sublist of rows carrying that key. -/
def groupBy [DecidableEq κ] (key : α → κ) (l : List α) : List (κ × List α) :=
  (dedupFirst (l.map key)).map fun k => (k, sqlFilter (fun a => key a = k) l)

theorem mem_groupBy [DecidableEq κ] (key : α → κ) (l : List α) (k : κ) (g : List α) :
    (k, g) ∈ groupBy key l ↔ k ∈ l.map key ∧ g = sqlFilter (fun a => key a = k) l := by
  constructor
  · intro h
    rcases List.mem_map.1 h with ⟨k0, hk0, heq⟩
    cases heq
    exact ⟨(mem_dedupFirst _ _).1 hk0, rfl⟩
  · rintro ⟨hk, rfl⟩
    exact List.mem_map.2 ⟨k, (mem_dedupFirst _ _).2 hk, rfl⟩

theorem groupBy_group_nonempty [DecidableEq κ] (key : α → κ) (l : List α)
    (k : κ) (g : List α) (h : (k, g) ∈ groupBy key l) : g ≠ [] := by
  rcases (mem_groupBy key l k g).1 h with ⟨hk, rfl⟩
  rcases List.mem_map.1 hk with ⟨a, ha, hka⟩
  intro hnil
  have : a ∈ sqlFilter (fun a => key a = k) l := (mem_sqlFilter _ _ _).2 ⟨ha, hka⟩
  simp [hnil] at this

/-- Running sums of a list, embedding
`SUM(x) OVER (ORDER BY ts ROWS BETWEEN UNBOUNDED PRECEDING AND CURRENT ROW)`. -/
def prefixSums (acc : ℚ) : List ℚ → List ℚ
  | [] => []
  | x :: l => (acc + x) :: prefixSums (acc + x) l

/-- Minimum of a list with a fallback for the empty list (SQL `MIN`
over a group, which is always nonempty). -/
def minQ : List ℚ → ℚ
  | [] => 0
  | x :: l => l.foldl min x

/-- Maximum of a list with a fallback for the empty list (SQL `MAX`). -/
def maxQ : List ℚ → ℚ
  | [] => 0
  | x :: l => l.foldl max x

/-- SQL `AVG` over a nonempty group of non-null values. -/
def avgQ (l : List ℚ) : ℚ := l.sum / l.length

/-- SQL `AVG` over nullable values: nulls are ignored; the aggregate is
null when no non-null input remains. -/
def avgOpt (l : List (Option ℚ)) : Option ℚ :=
  if (l.filterMap id) = [] then none else some (avgQ (l.filterMap id))

/-- SQL `STDDEV_SAMP`, embedded up to the strictly monotone square
root: the returned value is the sample variance `Σ(x−mean)²/(N−1)`,
and the aggregate is null (`none`) when fewer than two samples are
present, exactly as in the source. -/
def stddevSampVar (l : List ℚ) : Option ℚ :=
  if l.length < 2 then none
  else some (((l.map (fun x => (x - l.sum / l.length) ^ 2)).sum) / ((l.length : ℚ) - 1))

/-- Three-valued SQL `<` on nullable values: true only when both
operands are non-null and the comparison holds. -/
def ltOpt : Option ℚ → Option ℚ → Prop
  | some x, some y => x < y
  | _, _ => False

instance : DecidableRel ltOpt := by
  intro a b
  cases a <;> cases b <;> simp [ltOpt] <;> infer_instance

/-- Linear interpolation of a sorted value list at a rational index. -/
def interpAt (xs : List ℚ) (idx : ℚ) : ℚ :=
  (1 - (idx - ⌊idx⌋)) * xs.getD ⌊idx⌋.toNat 0 + (idx - ⌊idx⌋) * xs.getD ⌈idx⌉.toNat 0

/-- SQL `PERCENTILE_CONT(p) WITHIN GROUP (ORDER BY x)`: on a sorted
nonempty value list, linear interpolation at index `p·(N−1)`; null on
an empty input. -/
def percentileCont (xs : List ℚ) (p : ℚ) : Option ℚ :=
  if xs.isEmpty then none else some (interpAt xs (p * ((xs.length - 1 : ℕ) : ℚ)))

/-- `PERCENTILE_CONT` over a not-yet-sorted group, defaulting to `0`
for an empty group (only ever applied to nonempty groups). -/
def percentileOf (vals : List ℚ) (p : ℚ) : ℚ :=
  (percentileCont (List.insertionSort (fun a b : ℚ => a ≤ b) vals) p).getD 0

/-- `NTILE(k)` bucket of the 0-based position `pos` in a partition of
`n` ordered rows: the first `n % k` buckets receive `n / k + 1` rows,
the remaining buckets `n / k` rows. -/
def ntileBucket (k n pos : ℕ) : ℕ :=
  if pos < (n % k) * (n / k + 1) then pos / (n / k + 1) + 1
  else (n % k) + (pos - (n % k) * (n / k + 1)) / (n / k) + 1

/-- Attach `NTILE(k)` buckets to an ordered partition of `n` rows,
starting at position `i`. -/
def withNtile (k n : ℕ) : ℕ → List α → List (α × ℕ)
  | _, [] => []
  | i, a :: l => (a, ntileBucket k n i) :: withNtile k n (i + 1) l

/-! ## Result row types -/

/-- A result row of the event-CAR queries:
`(symbol, event_ts, min_car, max_car)`. -/
structure EventCarRow where
  sym : String
  eventTs : Int
  minCar : ℚ
  maxCar : ℚ
deriving DecidableEq

/-- A per-event markout row `(symbol, event_ts, markout_60m)`. -/
structure MarkoutRow where
  sym : String
  eventTs : Int
  markout : ℚ
deriving DecidableEq

/-- A result row of the hourly-markout queries:
`(funding_hour, avg_markout_60m, n_events)`. -/
structure HourAggRow where
  hour : Int
  avgMarkout : ℚ
  nEvents : ℕ
deriving DecidableEq

/-- A result row of `extreme_regimes`:
`(symbol, avg_markout_60m, n_events)`. -/
structure SymAggRow where
  sym : String
  avgMarkout : ℚ
  nEvents : ℕ
deriving DecidableEq

/-- A row of the `daily_rate_stats` CTE of QUERY_3:
`(symbol, d, p90_abs_rate)`. -/
structure DailyStatRow where
  sym : String
  d : Int
  p90AbsRate : ℚ
deriving DecidableEq

/-- A row of the `rolling_oi_stats` CTE of QUERY_3:
`(symbol, ts, oi, p90_oi_14d)`. -/
structure OiStatRow where
  sym : String
  ts : Int
  oi : ℚ
  p90Oi14d : ℚ
deriving DecidableEq

/-- A per-event realized-volatility row `(symbol, ts, rv)`; the `rv`
aggregate is null when the window held fewer than two samples. -/
structure RvRow where
  sym : String
  ts : Int
  rv : Option ℚ
deriving DecidableEq

/-- A result row of QUERY_9: `(symbol, avg_rv_30m, n_events)`. -/
structure SymRvRow where
  sym : String
  avgRv : Option ℚ
  nEvents : ℕ
deriving DecidableEq

/-- A result row of `symbol_overview`:
`(symbol, n_klines, n_funding_events, avg_kline_volume)`. -/
structure OverviewRow where
  sym : String
  nKlines : ℕ
  nFundingEvents : ℕ
  avgKlineVolume : ℚ
deriving DecidableEq

/-! ## Join helpers -/

/-- The windowed join of funding events against minute returns over the
closed offset window `[lo, hi]` (QUERY_1 / the slow CAR query):
`mr.symbol = f.symbol AND mr.ts BETWEEN f.ts + lo AND f.ts + hi`. -/
def windowJoin (db : Db) (events : List FundingRow) (lo hi : Int) :
    List (FundingRow × ReturnRow) :=
  events.flatMap fun f =>
    (sqlFilter (fun mr : ReturnRow =>
      mr.sym = f.sym ∧ f.ts + lo ≤ mr.ts ∧ mr.ts ≤ f.ts + hi) db.minuteReturns).map
      fun mr => (f, mr)

/-- The markout join against minute returns strictly after the event up
to +60 minutes: `mr.ts > ts AND mr.ts <= ts + 60 minutes`. -/
def markoutJoin (db : Db) (events : List (String × Int)) :
    List ((String × Int) × ReturnRow) :=
  events.flatMap fun r =>
    (sqlFilter (fun mr : ReturnRow =>
      mr.sym = r.1 ∧ r.2 < mr.ts ∧ mr.ts ≤ r.2 + 60) db.minuteReturns).map
      fun mr => (r, mr)

/-- The `(symbol, ts)` keys of a funding row list. -/
def fundingKeys (l : List FundingRow) : List (String × Int) :=
  l.map fun f => (f.sym, f.ts)

/-- The `event_markouts` common table expression: per funding event,
`SUM(mr.r1m)` over returns in `(ts, ts + 60]`, grouped by
`(symbol, ts)`; events with no return row in the window are absent
(inner join). -/
def eventMarkoutRows (db : Db) (events : List (String × Int)) : List MarkoutRow :=
  (groupBy (fun rm : (String × Int) × ReturnRow => rm.1) (markoutJoin db events)).map
    fun kg => ⟨kg.1.1, kg.1.2, (kg.2.map (fun rm => rm.2.r1m)).sum⟩

/-- Cumulative sums of a value over the join rows of one window
partition, ordered by the return timestamp (the `SUM(...) OVER
(PARTITION BY symbol, event_ts ORDER BY ts ROWS UNBOUNDED PRECEDING)`
window). -/
def carSeries (g : List (FundingRow × ReturnRow)) (val : FundingRow × ReturnRow → ℚ) :
    List ℚ :=
  prefixSums 0 ((List.insertionSort (fun x y : FundingRow × ReturnRow => x.2.ts ≤ y.2.ts) g).map val)

/-! ## QUERY_1 (app.py): cumulative return around funding -/

/-- QUERY_1 of `src/backend/app.py`: for each funding event of `symbol`
in `[s, e]`, the min/max cumulative sum of `r1m` over the window
`[-60, +180]` minutes, ordered by event timestamp. -/
def query1 (db : Db) (symbol : String) (s e : Int) : List EventCarRow :=
  let events := sqlFilter (fun f : FundingRow => f.sym = symbol ∧ s ≤ f.ts ∧ f.ts ≤ e) db.funding
  let groups := groupBy (fun fm : FundingRow × ReturnRow => (fm.1.sym, fm.1.ts))
    (windowJoin db events (-60) 180)
  List.insertionSort (fun a b : EventCarRow => a.eventTs ≤ b.eventTs)
    (groups.map fun kg =>
      ⟨kg.1.1, kg.1.2, minQ (carSeries kg.2 (fun fm => fm.2.r1m)),
        maxQ (carSeries kg.2 (fun fm => fm.2.r1m))⟩)

/-! ## Fast/slow event-CAR pair (main.py) -/

/-- A row of the materialized view `mv_event_car`. -/
structure MvCarRow where
  sym : String
  eventTs : Int
  ts : Int
  car : ℚ
deriving DecidableEq

/-- Modelled from the spec: the materialized view `mv_event_car`, whose
defining SQL is not under `src/` (only `src/backend/main.py` reads it).
Per spec §3, `EventCar(symbol, event_ts, offset_ts, car)` holds, for
every funding event, one row per minute-return row in the
`[-60, +180]`-minute window, with `car` the running sum of `r1m` from
the window start. -/
def mvEventCar (db : Db) : List MvCarRow :=
  (groupBy (fun fm : FundingRow × ReturnRow => (fm.1.sym, fm.1.ts))
    (windowJoin db db.funding (-60) 180)).flatMap fun kg =>
      let sorted := List.insertionSort (fun x y : FundingRow × ReturnRow => x.2.ts ≤ y.2.ts) kg.2
      (sorted.zip (prefixSums 0 (sorted.map fun fm => fm.2.r1m))).map fun p =>
        ⟨kg.1.1, kg.1.2, p.1.2.ts, p.2⟩

/-- The fast path `/api/event_car` of `src/backend/main.py`: min/max of
`car` from `mv_event_car`, filtered to `symbol` and the event-timestamp
range, grouped by event, ordered by event timestamp. -/
def fastEventCar (db : Db) (symbol : String) (s e : Int) : List EventCarRow :=
  let rows := sqlFilter (fun r : MvCarRow => r.sym = symbol ∧ s ≤ r.eventTs ∧ r.eventTs ≤ e)
    (mvEventCar db)
  let groups := groupBy (fun r : MvCarRow => (r.sym, r.eventTs)) rows
  List.insertionSort (fun a b : EventCarRow => a.eventTs ≤ b.eventTs)
    (groups.map fun kg =>
      ⟨kg.1.1, kg.1.2, minQ (kg.2.map fun r => r.car), maxQ (kg.2.map fun r => r.car)⟩)

/-- The slow path `/api/slow/event_car` of `src/backend/main.py`: over
all funding events, the window `[-60, +180]` is joined and the running
sum is taken over `post_ret` — `r1m` when `mr.ts >= event_ts`, else 0 —
then filtered to `symbol` and the range, grouped, and min/max taken. -/
def slowEventCar (db : Db) (symbol : String) (s e : Int) : List EventCarRow :=
  let groups := groupBy (fun fm : FundingRow × ReturnRow => (fm.1.sym, fm.1.ts))
    (windowJoin db db.funding (-60) 180)
  let kept := sqlFilter (fun kg : (String × Int) × List (FundingRow × ReturnRow) =>
    kg.1.1 = symbol ∧ s ≤ kg.1.2 ∧ kg.1.2 ≤ e) groups
  List.insertionSort (fun a b : EventCarRow => a.eventTs ≤ b.eventTs)
    (kept.map fun kg =>
      ⟨kg.1.1, kg.1.2,
        minQ (carSeries kg.2 (fun fm => if fm.1.ts ≤ fm.2.ts then fm.2.r1m else 0)),
        maxQ (carSeries kg.2 (fun fm => if fm.1.ts ≤ fm.2.ts then fm.2.r1m else 0))⟩)

/-! ## Fast/slow hourly-markout pair (main.py) -/

/-- Modelled from the spec: the materialized view `mv_event_markouts`,
whose defining SQL is not under `src/`.  Per spec §3,
`EventMarkout(symbol, event_ts, markout_60m)` is the sum of `r1m`
strictly after the event up to +60 minutes, one row per funding event
having at least one return row in that window. -/
def mvEventMarkouts (db : Db) : List MarkoutRow :=
  eventMarkoutRows db (fundingKeys db.funding)

/-- The fast path `/api/hourly_markouts` of `src/backend/main.py`:
average markout and event count from `mv_event_markouts`, filtered to
the event-timestamp range, grouped by `EXTRACT(HOUR FROM event_ts)`,
ordered by hour. -/
def fastHourlyMarkouts (db : Db) (s e : Int) : List HourAggRow :=
  let rows := sqlFilter (fun m : MarkoutRow => s ≤ m.eventTs ∧ m.eventTs ≤ e) (mvEventMarkouts db)
  let groups := groupBy (fun m : MarkoutRow => hourOf m.eventTs) rows
  List.insertionSort (fun a b : HourAggRow => a.hour ≤ b.hour)
    (groups.map fun kg => ⟨kg.1, avgQ (kg.2.map fun m => m.markout), kg.2.length⟩)

/-- The slow path `/api/slow/hourly_markouts` of `src/backend/main.py`:
the `all_event_markouts` CTE recomputes every event markout from the
facts, then the same range filter, hour grouping and ordering are
applied. -/
def slowHourlyMarkouts (db : Db) (s e : Int) : List HourAggRow :=
  let ems := eventMarkoutRows db (fundingKeys db.funding)
  let rows := sqlFilter (fun m : MarkoutRow => s ≤ m.eventTs ∧ m.eventTs ≤ e) ems
  let groups := groupBy (fun m : MarkoutRow => hourOf m.eventTs) rows
  List.insertionSort (fun a b : HourAggRow => a.hour ≤ b.hour)
    (groups.map fun kg => ⟨kg.1, avgQ (kg.2.map fun m => m.markout), kg.2.length⟩)

/-! ## QUERY_2 (app.py): funding deciles -/

/-- The `funding_with_decile` CTE of QUERY_2: funding events in
`[s, e]` with `NTILE(10) OVER (PARTITION BY DATE(ts) ORDER BY rate)`.
Note the partition is by calendar day only — not by symbol. -/
def fundingWithDecile (db : Db) (s e : Int) : List (FundingRow × ℕ) :=
  (groupBy (fun f : FundingRow => dateOf f.ts)
    (sqlFilter (fun f : FundingRow => s ≤ f.ts ∧ f.ts ≤ e) db.funding)).flatMap
    fun kg => withNtile 10 kg.2.length 0
      (List.insertionSort (fun a b : FundingRow => a.rate ≤ b.rate) kg.2)

/-! ## QUERY_3 (app.py): extreme regimes -/

/-- The `daily_rate_stats` CTE: per `(symbol, DATE(ts))` over funding
events in `[s, e]`, the continuous 90th percentile of `|rate|`. -/
def dailyRateStats (db : Db) (s e : Int) : List DailyStatRow :=
  (groupBy (fun f : FundingRow => (f.sym, dateOf f.ts))
    (sqlFilter (fun f : FundingRow => s ≤ f.ts ∧ f.ts ≤ e) db.funding)).map
    fun kg => ⟨kg.1.1, kg.1.2, percentileOf (kg.2.map fun f => |f.rate|) (9/10)⟩

/-- The `rolling_oi_stats` CTE: open-interest snapshots with
`ts BETWEEN s - 14 days AND e`, each with the continuous 90th
percentile of `oi` over the same symbol's snapshots in the trailing
14-day window (the `RANGE BETWEEN INTERVAL '14 days' PRECEDING AND
CURRENT ROW` frame over the filtered rows). -/
def rollingOiStats (db : Db) (s e : Int) : List OiStatRow :=
  let rows := sqlFilter (fun o : OiRow => s - 20160 ≤ o.ts ∧ o.ts ≤ e) db.openInterest
  rows.map fun o =>
    ⟨o.sym, o.ts, o.oi,
      percentileOf ((sqlFilter (fun x : OiRow =>
        x.sym = o.sym ∧ o.ts - 20160 ≤ x.ts ∧ x.ts ≤ o.ts) rows).map fun x => x.oi) (9/10)⟩

/-- The `regime_events` CTE of QUERY_3: funding events joined to their
symbol-day rate statistic and — by exact `(symbol, ts)` equality — to
an open-interest statistic row, kept when `|rate|` exceeds the day's
p90 and `oi` exceeds the trailing 14-day p90. -/
def regimeEvents (db : Db) (s e : Int) : List (String × Int) :=
  db.funding.flatMap fun f =>
    (sqlFilter (fun dr : DailyStatRow =>
      dr.sym = f.sym ∧ dr.d = dateOf f.ts ∧ dr.p90AbsRate < |f.rate|) (dailyRateStats db s e)).flatMap
      fun _ =>
        (sqlFilter (fun o : OiStatRow =>
          o.sym = f.sym ∧ o.ts = f.ts ∧ o.p90Oi14d < o.oi) (rollingOiStats db s e)).map
          fun _ => (f.sym, f.ts)

/-- Descending order on average markout (the `ORDER BY avg_markout_60m
DESC` of QUERY_3). -/
def symAggDesc (a b : SymAggRow) : Prop := b.avgMarkout ≤ a.avgMarkout

instance : DecidableRel symAggDesc := fun _ _ => inferInstanceAs (Decidable (_ ≤ _))

instance : IsTotal SymAggRow symAggDesc :=
  ⟨fun a b => (le_total b.avgMarkout a.avgMarkout).elim Or.inl Or.inr⟩

instance : IsTrans SymAggRow symAggDesc := ⟨fun _ _ _ h1 h2 => le_trans h2 h1⟩

/-- QUERY_3 of `src/backend/app.py` (`/api/extreme_regimes`): markouts
of regime-qualified events, grouped by symbol, kept when the group has
at least `minEvents` rows, ordered by descending average markout,
truncated to `topK` rows. -/
def extremeRegimes (db : Db) (s e : Int) (minEvents topK : ℕ) : List SymAggRow :=
  let ems := eventMarkoutRows db (regimeEvents db s e)
  let groups := groupBy (fun m : MarkoutRow => m.sym) ems
  let kept := sqlFilter (fun r : SymAggRow => minEvents ≤ r.nEvents)
    (groups.map fun kg => ⟨kg.1, avgQ (kg.2.map fun m => m.markout), kg.2.length⟩)
  (List.insertionSort symAggDesc kept).take topK

/-! ## QUERY_4 (app.py): symbols never negative in low-vol regimes -/

/-- The `funding_rv` CTE of QUERY_4: per funding event in `[s, e]`,
`STDDEV_SAMP(mr.r1m)` over returns in the closed trailing 1-day window
`[ts - 1 day, ts]`, grouped by `(symbol, ts)`; events with no return
row in the window are absent (inner join). -/
def fundingRv (db : Db) (s e : Int) : List RvRow :=
  let j := (sqlFilter (fun f : FundingRow => s ≤ f.ts ∧ f.ts ≤ e) db.funding).flatMap
    fun f => (sqlFilter (fun mr : ReturnRow =>
      mr.sym = f.sym ∧ f.ts - 1440 ≤ mr.ts ∧ mr.ts ≤ f.ts) db.minuteReturns).map
      fun mr => (f, mr)
  (groupBy (fun fm : FundingRow × ReturnRow => (fm.1.sym, fm.1.ts)) j).map
    fun kg => ⟨kg.1.1, kg.1.2, stddevSampVar (kg.2.map fun fm => fm.2.r1m)⟩

/-- The `median_rv` CTE of QUERY_4: `PERCENTILE_CONT(0.5)` of the
non-null `rv_1d` values; null when there are none. -/
def medianRv (db : Db) (s e : Int) : Option ℚ :=
  percentileCont
    (List.insertionSort (fun a b : ℚ => a ≤ b) ((fundingRv db s e).filterMap fun r => r.rv))
    (1 / 2)

/-- The inner `EXISTS` of QUERY_4 restricted to the minute-return
conditions: some return of `sym` in `(t, t + 30]` is negative. -/
def negReturnSoon (db : Db) (sym : String) (t : Int) : Prop :=
  ∃ mr ∈ db.minuteReturns, mr.sym = sym ∧ t < mr.ts ∧ mr.ts ≤ t + 30 ∧ mr.r1m < 0

instance (db : Db) (sym : String) (t : Int) : Decidable (negReturnSoon db sym t) :=
  inferInstanceAs (Decidable (∃ mr ∈ db.minuteReturns, _))

/-- QUERY_4 of `src/backend/app.py` (`/api/never_negative_lowvol`):
the distinct symbols of `funding_rv` rows for which the `NOT EXISTS`
holds — i.e. it is not the case that the event's `rv_1d` is below the
median and some return in the following 30 minutes is negative —
ordered by symbol.  Note the below-median conjunct sits inside the
`EXISTS`, so one compliant event suffices to emit the symbol. -/
def neverNegativeLowVol (db : Db) (s e : Int) : List String :=
  let keep := sqlFilter (fun fr : RvRow =>
    ¬ (ltOpt fr.rv (medianRv db s e) ∧ negReturnSoon db fr.sym fr.ts)) (fundingRv db s e)
  List.insertionSort (fun a b : String => a ≤ b) (dedupFirst (keep.map fun fr => fr.sym))

/-! ## QUERY_7 (app.py): symbol overview -/

/-- The row set of QUERY_7 before aggregation:
`symbols LEFT JOIN klines ON symbol LEFT JOIN funding ON symbol`. -/
def overviewJoin (db : Db) : List (String × Option KlineRow × Option FundingRow) :=
  db.symbols.flatMap fun sy =>
    let ks := sqlFilter (fun k : KlineRow => k.sym = sy) db.klines
    let fs := sqlFilter (fun f : FundingRow => f.sym = sy) db.funding
    let kk : List (Option KlineRow) := if ks = [] then [none] else ks.map some
    let ff : List (Option FundingRow) := if fs = [] then [none] else fs.map some
    kk.flatMap fun k => ff.map fun f => (sy, k, f)

/-- The `WHERE k.open_time BETWEEN s AND e` of QUERY_7 applied to the
nullable kline side of the left join: a null kline never passes. -/
def inRangeK (s e : Int) : Option KlineRow → Prop
  | some k => s ≤ k.openTime ∧ k.openTime ≤ e
  | none => False

instance (s e : Int) (k : Option KlineRow) : Decidable (inRangeK s e k) := by
  cases k <;> simp [inRangeK] <;> infer_instance

/-- QUERY_7 of `src/backend/app.py` (`/api/symbol_overview`; the slow
`/api/slow/symbol_overview` of `src/backend/main.py` is the same query
with inlined CTEs): per symbol, `COUNT(DISTINCT k.open_time)`,
`COUNT(DISTINCT f.ts)` and `AVG(k.volume)` over the doubly left-joined
rows surviving the kline range filter, grouped by symbol, ordered by
symbol. -/
def symbolOverview (db : Db) (s e : Int) : List OverviewRow :=
  let rows := sqlFilter (fun r : String × Option KlineRow × Option FundingRow =>
    inRangeK s e r.2.1) (overviewJoin db)
  let groups := groupBy (fun r : String × Option KlineRow × Option FundingRow => r.1) rows
  List.insertionSort (fun a b : OverviewRow => a.sym ≤ b.sym)
    (groups.map fun kg =>
      ⟨kg.1,
        (dedupFirst (kg.2.filterMap fun r => r.2.1.map fun k => k.openTime)).length,
        (dedupFirst (kg.2.filterMap fun r => r.2.2.map fun f => f.ts)).length,
        avgQ (kg.2.filterMap fun r => r.2.1.map fun k => k.volume)⟩)

/-! ## QUERY_9 (app.py): average 30-minute realized volatility -/

/-- The join of QUERY_9's `event_rv` CTE: funding events in `[s, e]`
against returns in the closed window `[ts, ts + 30]`. -/
def rv30Join (db : Db) (s e : Int) : List (FundingRow × ReturnRow) :=
  (sqlFilter (fun f : FundingRow => s ≤ f.ts ∧ f.ts ≤ e) db.funding).flatMap
    fun f => (sqlFilter (fun mr : ReturnRow =>
      mr.sym = f.sym ∧ f.ts ≤ mr.ts ∧ mr.ts ≤ f.ts + 30) db.minuteReturns).map
      fun mr => (f, mr)

/-- The `event_rv` CTE of QUERY_9: per funding event in `[s, e]`,
`STDDEV_SAMP(mr.r1m)` over returns in the closed window
`[ts, ts + 30]`, grouped by `(symbol, ts)`. -/
def eventRv30 (db : Db) (s e : Int) : List RvRow :=
  (groupBy (fun fm : FundingRow × ReturnRow => (fm.1.sym, fm.1.ts)) (rv30Join db s e)).map
    fun kg => ⟨kg.1.1, kg.1.2, stddevSampVar (kg.2.map fun fm => fm.2.r1m)⟩

/-- The `r1m` samples aggregated for the `(sym, t)` group of QUERY_9's
`event_rv` CTE. -/
def rv30Samples (db : Db) (s e : Int) (sym : String) (t : Int) : List ℚ :=
  (sqlFilter (fun fm : FundingRow × ReturnRow => (fm.1.sym, fm.1.ts) = (sym, t))
    (rv30Join db s e)).map fun fm => fm.2.r1m

/-- Descending order on the nullable average volatility (`ORDER BY
avg_rv_30m DESC`; PostgreSQL places nulls first in descending order). -/
def symRvDesc (a b : SymRvRow) : Prop :=
  match a.avgRv, b.avgRv with
  | none, _ => True
  | some _, none => False
  | some x, some y => y ≤ x

instance : DecidableRel symRvDesc := by
  intro a b
  unfold symRvDesc
  rcases a.avgRv with _ | x <;> rcases b.avgRv with _ | y <;> infer_instance

/-- QUERY_9 of `src/backend/app.py` (`/api/avg_rv_30m`): per symbol,
the average of the non-null per-event volatilities and the event count
(null volatilities are ignored by `AVG` but still counted by
`COUNT(*)`), ordered by descending average. -/
def avgRv30 (db : Db) (s e : Int) : List SymRvRow :=
  let groups := groupBy (fun r : RvRow => r.sym) (eventRv30 db s e)
  List.insertionSort symRvDesc
    (groups.map fun kg => ⟨kg.1, avgOpt (kg.2.map fun r => r.rv), kg.2.length⟩)

/-! ## Ingestion (src/python/load_data.py) -/

/-- A raw CSV funding row as seen after `_safe_parse_ts` /
`_safe_float`: `none` fields model unparseable inputs. -/
structure RawFundingRow where
  sym : String
  ts : Option Int
  rate : Option ℚ
deriving DecidableEq

/-- A raw CSV open-interest row, as `RawFundingRow`. -/
structure RawOiRow where
  sym : String
  ts : Option Int
  oi : Option ℚ
deriving DecidableEq

/-- The row cleaning of `load_synthetic_funding`: the symbol is
upper-cased and trimmed; rows with an empty symbol, unparseable
timestamp or non-numeric rate are skipped (counted as bad, never
aborting the batch). -/
def cleanFunding (raws : List RawFundingRow) : List FundingRow :=
  raws.filterMap fun r =>
    match r.ts, r.rate with
    | some t, some ra =>
      if r.sym.toUpper.trim = "" then none else some ⟨r.sym.toUpper.trim, t, ra⟩
    | _, _ => none

/-- The row cleaning of `load_synthetic_open_interest`. -/
def cleanOpenInterest (raws : List RawOiRow) : List OiRow :=
  raws.filterMap fun r =>
    match r.ts, r.oi with
    | some t, some v =>
      if r.sym.toUpper.trim = "" then none else some ⟨r.sym.toUpper.trim, t, v⟩
    | _, _ => none

/-- `INSERT ... ON CONFLICT (key) DO NOTHING` for a single row: the row
is appended unless a stored row already carries its key. -/
def insertByKey [DecidableEq κ] (key : α → κ) (store : List α) (row : α) : List α :=
  if ∃ a ∈ store, key a = key row then store else store ++ [row]

/-- Batch insertion with conflict-ignoring semantics, row by row in
batch order. -/
def upsert [DecidableEq κ] (key : α → κ) (store : List α) (rows : List α) : List α :=
  rows.foldl (insertByKey key) store

/-- `load_synthetic_funding`: clean the raw batch, then insert with
`ON CONFLICT (symbol, ts) DO NOTHING`. -/
def ingestFunding (store : List FundingRow) (raws : List RawFundingRow) : List FundingRow :=
  upsert (fun f : FundingRow => (f.sym, f.ts)) store (cleanFunding raws)

/-- `load_synthetic_open_interest`: clean the raw batch, then insert
with `ON CONFLICT (symbol, ts) DO NOTHING`. -/
def ingestOpenInterest (store : List OiRow) (raws : List RawOiRow) : List OiRow :=
  upsert (fun o : OiRow => (o.sym, o.ts)) store (cleanOpenInterest raws)

/-- `_insert_klines_batch`: insert an already-cleaned kline batch with
`ON CONFLICT (symbol, open_time) DO NOTHING`. -/
def insertKlinesBatch (store : List KlineRow) (batch : List KlineRow) : List KlineRow :=
  upsert (fun k : KlineRow => (k.sym, k.openTime)) store batch

/-! ## Generic lemmas about the combinators -/

theorem sqlFilter_all (p : α → Prop) [DecidablePred p] (l : List α)
    (h : ∀ x ∈ l, p x) : sqlFilter p l = l := by
  induction l with
  | nil => simp [sqlFilter]
  | cons a l ih =>
    rw [sqlFilter, if_pos (h a (List.mem_cons_self a l))]
    rw [ih fun x hx => h x (List.mem_cons_of_mem a hx)]

theorem dedupFirst_const [DecidableEq α] (m : List α) (k : α)
    (hne : m ≠ []) (h : ∀ x ∈ m, x = k) : dedupFirst m = [k] := by
  cases m with
  | nil => exact absurd rfl hne
  | cons a t =>
    have ha : a = k := h a (List.mem_cons_self a t)
    subst ha
    rw [dedupFirst, sqlFilter_eq_nil _ _ ?_, dedupFirst]
    intro x hx hxa
    exact hxa (h x (List.mem_cons_of_mem a hx))

theorem groupBy_const [DecidableEq κ] (key : α → κ) (l : List α) (k : κ)
    (hne : l ≠ []) (h : ∀ x ∈ l, key x = k) : groupBy key l = [(k, l)] := by
  unfold groupBy
  rw [dedupFirst_const (l.map key) k ?_ ?_]
  · rw [List.map_singleton, sqlFilter_all]
    intro x hx
    exact h x hx
  · simpa using hne
  · intro x hx
    rcases List.mem_map.1 hx with ⟨a, ha, rfl⟩
    exact h a ha

theorem foldl_min_le (t : List ℚ) (x : ℚ) :
    t.foldl min x ≤ x ∧ ∀ y ∈ t, t.foldl min x ≤ y := by
  induction t generalizing x with
  | nil => simp
  | cons a t ih =>
    refine ⟨?_, ?_⟩
    · exact le_trans (ih (min x a)).1 (min_le_left x a)
    · intro y hy
      rcases List.mem_cons.1 hy with rfl | hy
      · exact le_trans (ih (min x y)).1 (min_le_right x y)
      · exact (ih (min x a)).2 y hy

theorem foldl_min_mem (t : List ℚ) (x : ℚ) : t.foldl min x = x ∨ t.foldl min x ∈ t := by
  induction t generalizing x with
  | nil => simp
  | cons a t ih =>
    rcases ih (min x a) with h | h
    · rcases min_cases x a with ⟨hm, _⟩ | ⟨hm, _⟩
      · left
        rw [List.foldl_cons, h, hm]
      · right
        rw [List.foldl_cons, h, hm]
        exact List.mem_cons_self a t
    · right
      exact List.mem_cons_of_mem a h

theorem le_foldl_max (t : List ℚ) (x : ℚ) :
    x ≤ t.foldl max x ∧ ∀ y ∈ t, y ≤ t.foldl max x := by
  induction t generalizing x with
  | nil => simp
  | cons a t ih =>
    refine ⟨?_, ?_⟩
    · exact le_trans (le_max_left x a) (ih (max x a)).1
    · intro y hy
      rcases List.mem_cons.1 hy with rfl | hy
      · exact le_trans (le_max_right x y) (ih (max x y)).1
      · exact (ih (max x a)).2 y hy

theorem foldl_max_mem (t : List ℚ) (x : ℚ) : t.foldl max x = x ∨ t.foldl max x ∈ t := by
  induction t generalizing x with
  | nil => simp
  | cons a t ih =>
    rcases ih (max x a) with h | h
    · rcases max_cases x a with ⟨hm, _⟩ | ⟨hm, _⟩
      · left
        rw [List.foldl_cons, h, hm]
      · right
        rw [List.foldl_cons, h, hm]
        exact List.mem_cons_self a t
    · right
      exact List.mem_cons_of_mem a h

theorem minQ_eq (l : List ℚ) (x : ℚ) (hx : x ∈ l) (hub : ∀ y ∈ l, x ≤ y) :
    minQ l = x := by
  cases l with
  | nil => simp at hx
  | cons a t =>
    refine le_antisymm ?_ ?_
    · rcases List.mem_cons.1 hx with rfl | hx2
      · exact (foldl_min_le t x).1
      · exact (foldl_min_le t a).2 x hx2
    · rcases foldl_min_mem t a with h | h
      · rw [minQ, h]
        exact hub a (List.mem_cons_self a t)
      · rw [minQ]
        exact hub _ (List.mem_cons_of_mem a h)

theorem maxQ_eq (l : List ℚ) (x : ℚ) (hx : x ∈ l) (hub : ∀ y ∈ l, y ≤ x) :
    maxQ l = x := by
  cases l with
  | nil => simp at hx
  | cons a t =>
    refine le_antisymm ?_ ?_
    · rcases foldl_max_mem t a with h | h
      · rw [maxQ, h]
        exact hub a (List.mem_cons_self a t)
      · rw [maxQ]
        exact hub _ (List.mem_cons_of_mem a h)
    · rcases List.mem_cons.1 hx with rfl | hx2
      · exact (le_foldl_max t x).1
      · exact (le_foldl_max t a).2 x hx2

theorem prefixSums_replicate (r : ℚ) (n : ℕ) (acc : ℚ) :
    prefixSums acc (List.replicate n r) =
      (List.range n).map fun i : ℕ => acc + ((i : ℚ) + 1) * r := by
  induction n generalizing acc with
  | zero => simp [prefixSums]
  | succ n ih =>
    rw [List.replicate_succ]
    rw [show prefixSums acc (r :: List.replicate n r) =
      (acc + r) :: prefixSums (acc + r) (List.replicate n r) from rfl]
    rw [ih, List.range_succ_eq_map, List.map_cons, List.map_map]
    congr 1
    · push_cast
      ring
    · refine List.map_congr_left ?_
      intro i _
      simp only [Function.comp]
      push_cast
      ring

/-! ## The §8 CAR scenario dataset -/

/-- `n` consecutive minute returns of value `r` for `sym`, starting at
minute `t0`. -/
def constReturns (sym : String) (t0 : Int) (r : ℚ) : ℕ → List ReturnRow
  | 0 => []
  | n + 1 => ⟨sym, t0, r⟩ :: constReturns sym (t0 + 1) r n

theorem mem_constReturns (sym : String) (t0 : Int) (r : ℚ) (n : ℕ) (mr : ReturnRow) :
    mr ∈ constReturns sym t0 r n ↔ ∃ i : ℕ, i < n ∧ mr = ⟨sym, t0 + i, r⟩ := by
  induction n generalizing t0 with
  | zero => simp [constReturns]
  | succ n ih =>
    rw [constReturns]
    simp only [List.mem_cons, ih]
    constructor
    · rintro (rfl | ⟨i, hi, rfl⟩)
      · exact ⟨0, Nat.succ_pos n, by simp⟩
      · refine ⟨i + 1, Nat.succ_lt_succ hi, ?_⟩
        congr 1
        push_cast
        ring
    · rintro ⟨i, hi, rfl⟩
      cases i with
      | zero => left; simp
      | succ i =>
        right
        refine ⟨i, Nat.lt_of_succ_lt_succ hi, ?_⟩
        congr 1
        push_cast
        ring

theorem constReturns_map_r1m (sym : String) (t0 : Int) (r : ℚ) (n : ℕ) :
    (constReturns sym t0 r n).map (fun mr => mr.r1m) = List.replicate n r := by
  induction n generalizing t0 with
  | zero => simp [constReturns]
  | succ n ih =>
    rw [constReturns, List.map_cons, ih, List.replicate_succ]

theorem constReturns_pairwise (sym : String) (t0 : Int) (r : ℚ) (n : ℕ) :
    List.Pairwise (fun a b : ReturnRow => a.ts ≤ b.ts) (constReturns sym t0 r n) := by
  induction n generalizing t0 with
  | zero => simp [constReturns]
  | succ n ih =>
    rw [constReturns]
    refine List.pairwise_cons.2 ⟨?_, ih (t0 + 1)⟩
    intro b hb
    rcases (mem_constReturns sym (t0 + 1) r n b).1 hb with ⟨i, _, rfl⟩
    simp only
    omega

theorem constReturns_ne_nil (sym : String) (t0 : Int) (r : ℚ) (n : ℕ) (hn : n ≠ 0) :
    constReturns sym t0 r n ≠ [] := by
  cases n with
  | zero => exact absurd rfl hn
  | succ n => rw [constReturns]; exact List.cons_ne_nil _ _

/-- The §8 scenario: symbol BTCUSDT, one funding event at
2024-01-01T00:00:00Z (epoch minute 28401120) with rate 0.0001, and a
minute return of 0.001 at every minute from 23:00 of the prior day
through 03:00 (the 241 minutes 28401060 .. 28401300). -/
def c2Db : Db :=
  { symbols := ["BTCUSDT"]
    funding := [⟨"BTCUSDT", 28401120, 1 / 10000⟩]
    minuteReturns := constReturns "BTCUSDT" 28401060 (1 / 1000) 241
    openInterest := []
    klines := [] }

theorem c2_query1_eval :
    query1 c2Db "BTCUSDT" 28401060 28401300 =
      [⟨"BTCUSDT", 28401120, 1 / 1000, 241 / 1000⟩] := by
  have hev : sqlFilter (fun f : FundingRow =>
      f.sym = "BTCUSDT" ∧ 28401060 ≤ f.ts ∧ f.ts ≤ 28401300) c2Db.funding =
      [⟨"BTCUSDT", 28401120, 1 / 10000⟩] := by
    refine sqlFilter_all _ _ ?_
    intro x hx
    rcases List.mem_singleton.1 hx with rfl
    exact ⟨rfl, by norm_num, by norm_num⟩
  have hwin : sqlFilter (fun mr : ReturnRow =>
      mr.sym = "BTCUSDT" ∧ (28401120 : Int) + -60 ≤ mr.ts ∧ mr.ts ≤ (28401120 : Int) + 180)
      c2Db.minuteReturns = c2Db.minuteReturns := by
    refine sqlFilter_all _ _ ?_
    intro mr hmr
    rcases (mem_constReturns _ _ _ _ mr).1 hmr with ⟨i, hi, rfl⟩
    refine ⟨rfl, ?_, ?_⟩
    · simp only
      omega
    · simp only
      omega
  have hjoin : windowJoin c2Db [⟨"BTCUSDT", 28401120, 1 / 10000⟩] (-60) 180 =
      c2Db.minuteReturns.map (fun mr => (⟨"BTCUSDT", 28401120, 1 / 10000⟩, mr)) := by
    unfold windowJoin
    rw [List.flatMap_cons, List.flatMap_nil, List.append_nil]
    rw [hwin]
  have hne : c2Db.minuteReturns ≠ [] := constReturns_ne_nil _ _ _ _ (by norm_num)
  have hgrp : groupBy (fun fm : FundingRow × ReturnRow => (fm.1.sym, fm.1.ts))
      (c2Db.minuteReturns.map (fun mr => (⟨"BTCUSDT", 28401120, 1 / 10000⟩, mr))) =
      [(("BTCUSDT", (28401120 : Int)),
        c2Db.minuteReturns.map (fun mr => (⟨"BTCUSDT", 28401120, 1 / 10000⟩, mr)))] := by
    refine groupBy_const _ _ _ ?_ ?_
    · simpa using hne
    · intro x hx
      rcases List.mem_map.1 hx with ⟨mr, _, rfl⟩
      rfl
  have hsorted : List.Pairwise (fun x y : FundingRow × ReturnRow => x.2.ts ≤ y.2.ts)
      (c2Db.minuteReturns.map (fun mr => (⟨"BTCUSDT", 28401120, 1 / 10000⟩, mr))) := by
    rw [List.pairwise_map]
    exact constReturns_pairwise _ _ _ _
  have hcar : carSeries
      (c2Db.minuteReturns.map (fun mr => (⟨"BTCUSDT", 28401120, 1 / 10000⟩, mr)))
      (fun fm => fm.2.r1m) =
      (List.range 241).map (fun i : ℕ => 0 + ((i : ℚ) + 1) * (1 / 1000)) := by
    unfold carSeries
    rw [List.Sorted.insertionSort_eq hsorted]
    rw [List.map_map]
    have : ((fun fm : FundingRow × ReturnRow => fm.2.r1m) ∘
        fun mr => ((⟨"BTCUSDT", 28401120, 1 / 10000⟩ : FundingRow), mr)) =
        fun mr : ReturnRow => mr.r1m := rfl
    rw [this]
    rw [show c2Db.minuteReturns = constReturns "BTCUSDT" 28401060 (1 / 1000) 241 from rfl]
    rw [constReturns_map_r1m, prefixSums_replicate]
  have hmin : minQ ((List.range 241).map (fun i : ℕ => 0 + ((i : ℚ) + 1) * (1 / 1000))) =
      1 / 1000 := by
    have hx : minQ ((List.range 241).map (fun i : ℕ => 0 + ((i : ℚ) + 1) * (1 / 1000))) =
        0 + (((0 : ℕ) : ℚ) + 1) * (1 / 1000) := by
      refine minQ_eq _ _ (List.mem_map.2 ⟨0, List.mem_range.2 (by norm_num), rfl⟩) ?_
      intro y hy
      rcases List.mem_map.1 hy with ⟨i, _, rfl⟩
      have h1 : (0 : ℚ) ≤ (i : ℚ) := Nat.cast_nonneg i
      nlinarith
    rw [hx]
    norm_num
  have hmax : maxQ ((List.range 241).map (fun i : ℕ => 0 + ((i : ℚ) + 1) * (1 / 1000))) =
      241 / 1000 := by
    have hx : maxQ ((List.range 241).map (fun i : ℕ => 0 + ((i : ℚ) + 1) * (1 / 1000))) =
        0 + (((240 : ℕ) : ℚ) + 1) * (1 / 1000) := by
      refine maxQ_eq _ _ (List.mem_map.2 ⟨240, List.mem_range.2 (by norm_num), rfl⟩) ?_
      intro y hy
      rcases List.mem_map.1 hy with ⟨i, hi, rfl⟩
      have hile : (i : ℚ) ≤ ((240 : ℕ) : ℚ) := by
        exact_mod_cast Nat.le_of_lt_succ (List.mem_range.1 hi)
      push_cast at hile ⊢
      linarith
    rw [hx]
    norm_num
  unfold query1
  simp only [hev, hjoin, hgrp, List.map_cons, List.map_nil, hcar, hmin, hmax]
  simp [List.insertionSort, List.orderedInsert]

/-! ## Claim C1: slow-path vs fast-path equivalence -/

/-- The dataset refuting the eventCar fast/slow equivalence: one event
with one nonzero pre-event in-window return. -/
def c1Db : Db :=
  { symbols := ["A"]
    funding := [⟨"A", 1000, 0⟩]
    minuteReturns := [⟨"A", 999, 1 / 1000⟩, ⟨"A", 1000, 1 / 1000⟩]
    openInterest := []
    klines := [] }

/-- C1 counterexample: the fast path (per the spec's `mv_event_car`,
whose `car` is the running sum of `r1m` from the window start) and the
slow path (whose running sum zeroes pre-event returns) disagree on
`min_car` by 1/1000, far beyond the 1e-9 tolerance, on the same
input. -/
theorem c1_counterexample :
    fastEventCar c1Db "A" 0 2000 = [⟨"A", 1000, 1 / 1000, 2 / 1000⟩] ∧
    slowEventCar c1Db "A" 0 2000 = [⟨"A", 1000, 0, 1 / 1000⟩] ∧
    ¬ (|(1 : ℚ) / 1000 - 0| ≤ 1 / 1000000000) := by
  refine ⟨?_, ?_, ?_⟩
  · norm_num [c1Db, fastEventCar, mvEventCar, windowJoin, sqlFilter, groupBy, dedupFirst,
      prefixSums, minQ, maxQ, List.insertionSort, List.orderedInsert, List.zip, List.zipWith]
  · norm_num [c1Db, slowEventCar, windowJoin, sqlFilter, groupBy, dedupFirst, carSeries,
      prefixSums, minQ, maxQ, List.insertionSort, List.orderedInsert]
  · rw [sub_zero, abs_of_nonneg (by norm_num : (0 : ℚ) ≤ 1 / 1000)]
    norm_num

/-- C1 amended: of the four slow/fast pairs, the hourly-markout pair
does return identical result rows for every dataset and range (with
`mv_event_markouts` modelled from the spec); the eventCar pair differs
whenever a pre-event in-window minute return is nonzero (see the
counterexample), the slow volRegimeMarkouts computes tertiles over
in-range events only, and the slow symbolOverview counts funding events
over the whole history. -/
theorem c1_hourly_fast_slow_agree (db : Db) (s e : Int) :
    fastHourlyMarkouts db s e = slowHourlyMarkouts db s e := rfl

/-! ## Claim C2: the §8 CAR scenario -/

/-- C2 counterexample: on the §8 scenario dataset, `eventCar`
(QUERY_1) returns `max_car = 0.241`, not the claimed `0.18`. -/
theorem c2_counterexample :
    query1 c2Db "BTCUSDT" 28401060 28401300 =
      [⟨"BTCUSDT", 28401120, 1 / 1000, 241 / 1000⟩] ∧
    (241 : ℚ) / 1000 ≠ 18 / 100 := ⟨c2_query1_eval, by norm_num⟩

/-- C2 amended: on the §8 scenario dataset, `eventCar` returns
`max_car = 0.241` — the running sum over all 241 in-window minutes,
pre-event minutes and the event minute included — and `min_car = 0.001`
(the minimum partial sum, reached at the first window minute); the
window total of the minute returns equals that `max_car`. -/
theorem c2_theorem :
    query1 c2Db "BTCUSDT" 28401060 28401300 =
      [⟨"BTCUSDT", 28401120, 1 / 1000, 241 / 1000⟩] ∧
    (c2Db.minuteReturns.map (fun mr => mr.r1m)).sum = 241 / 1000 := by
  refine ⟨c2_query1_eval, ?_⟩
  rw [show c2Db.minuteReturns = constReturns "BTCUSDT" 28401060 (1 / 1000) 241 from rfl]
  rw [constReturns_map_r1m, List.sum_replicate]
  norm_num

/-! ## Claim C3: neverNegativeLowVol -/

/-- The dataset refuting C3: symbol A has a "bad" event at minute 1000
(below-median 1-day volatility and a negative return 10 minutes later)
and a "good" event at minute 5000 (no negative return within 30
minutes), plus a third event at 9000 pinning the median. -/
def c3Db : Db :=
  { symbols := ["A"]
    funding := [⟨"A", 1000, 0⟩, ⟨"A", 5000, 0⟩, ⟨"A", 9000, 0⟩]
    minuteReturns :=
      [⟨"A", 999, 0⟩, ⟨"A", 1000, 2 / 1000⟩, ⟨"A", 1010, -1 / 1000⟩,
       ⟨"A", 4999, 0⟩, ⟨"A", 5000, 10 / 1000⟩,
       ⟨"A", 8999, 0⟩, ⟨"A", 9000, 4 / 1000⟩]
    openInterest := []
    klines := [] }

/-- C3 counterexample: symbol A has a funding event (minute 1000) that
is in a below-median volatility regime and is followed by a negative
return within 30 minutes, yet `neverNegativeLowVol` still returns A,
because the query's `NOT EXISTS` keeps a symbol as soon as one of its
events is compliant.  The claim requires A to be excluded. -/
theorem c3_counterexample :
    neverNegativeLowVol c3Db 0 10000 = ["A"] ∧
    (∃ fr ∈ fundingRv c3Db 0 10000, fr.sym = "A" ∧
      ltOpt fr.rv (medianRv c3Db 0 10000) ∧ negReturnSoon c3Db fr.sym fr.ts) := by
  have hrv : fundingRv c3Db 0 10000 =
      [⟨"A", 1000, some (2 / 1000000)⟩, ⟨"A", 5000, some (50 / 1000000)⟩,
       ⟨"A", 9000, some (8 / 1000000)⟩] := by
    norm_num [c3Db, fundingRv, sqlFilter, groupBy, dedupFirst, stddevSampVar]
  have hmed : medianRv c3Db 0 10000 = some (8 / 1000000) := by
    rw [medianRv, hrv]
    norm_num [percentileCont, interpAt, List.insertionSort, List.orderedInsert,
      Int.floor_one, Int.ceil_one]
  have hbad : ltOpt (some (2 / 1000000)) (medianRv c3Db 0 10000) ∧
      negReturnSoon c3Db "A" 1000 := by
    constructor
    · rw [hmed]
      norm_num [ltOpt]
    · exact ⟨⟨"A", 1010, -1 / 1000⟩, by norm_num [c3Db], rfl, by norm_num, by norm_num,
        by norm_num⟩
  have hgood : ∀ t : Int, t = 5000 ∨ t = 9000 → ¬ negReturnSoon c3Db "A" t := by
    rintro t ht ⟨mr, hmr, _, h1, h2, h3⟩
    simp only [c3Db, List.mem_cons, List.not_mem_nil, or_false] at hmr
    rcases ht with rfl | rfl <;>
      rcases hmr with rfl | rfl | rfl | rfl | rfl | rfl | rfl <;>
      revert h1 h2 h3 <;>
      norm_num
  constructor
  · rw [neverNegativeLowVol, hrv]
    rw [sqlFilter, if_neg (not_not_intro hbad),
      sqlFilter, if_pos (fun h => hgood 5000 (Or.inl rfl) h.2),
      sqlFilter, if_pos (fun h => hgood 9000 (Or.inr rfl) h.2),
      sqlFilter]
    simp [dedupFirst, sqlFilter, List.insertionSort, List.orderedInsert]
  · refine ⟨⟨"A", 1000, some (2 / 1000000)⟩, by rw [hrv]; norm_num, rfl, ?_, ?_⟩
    · rw [hmed]
      norm_num [ltOpt]
    · refine ⟨⟨"A", 1010, -1 / 1000⟩, by norm_num [c3Db], rfl, by norm_num, by norm_num,
        by norm_num⟩

/-- C3 amended: `neverNegativeLowVol` returns exactly the symbols
having at least one in-range funding event (with a defined join window)
that is NOT both in a below-median volatility regime and followed by a
negative return within 30 minutes; a symbol is excluded only when every
such event is below-median with a subsequent negative return. -/
theorem c3_theorem (db : Db) (s e : Int) (sym : String) :
    sym ∈ neverNegativeLowVol db s e ↔
      ∃ fr ∈ fundingRv db s e, fr.sym = sym ∧
        ¬ (ltOpt fr.rv (medianRv db s e) ∧ negReturnSoon db fr.sym fr.ts) := by
  unfold neverNegativeLowVol
  rw [List.Perm.mem_iff (List.perm_insertionSort _ _)]
  rw [mem_dedupFirst]
  simp only [List.mem_map, mem_sqlFilter]
  constructor
  · rintro ⟨fr, ⟨hmem, hcond⟩, rfl⟩
    exact ⟨fr, hmem, rfl, hcond⟩
  · rintro ⟨fr, hmem, rfl, hcond⟩
    exact ⟨fr, ⟨hmem, hcond⟩, rfl⟩

/-! ## Claim C9: idempotent ingestion -/

theorem insertByKey_of_key_mem [DecidableEq κ] (key : α → κ) (store : List α) (row : α)
    (h : ∃ a ∈ store, key a = key row) : insertByKey key store row = store := by
  rw [insertByKey, if_pos h]

theorem key_mem_insertByKey_self [DecidableEq κ] (key : α → κ) (store : List α) (row : α) :
    ∃ a ∈ insertByKey key store row, key a = key row := by
  rw [insertByKey]
  by_cases h : ∃ a ∈ store, key a = key row
  · rw [if_pos h]
    exact h
  · rw [if_neg h]
    exact ⟨row, List.mem_append_right _ (List.mem_singleton.2 rfl), rfl⟩

theorem key_mem_insertByKey_mono [DecidableEq κ] (key : α → κ) (store : List α)
    (row : α) (k : κ) (h : ∃ a ∈ store, key a = k) :
    ∃ a ∈ insertByKey key store row, key a = k := by
  rw [insertByKey]
  by_cases h2 : ∃ a ∈ store, key a = key row
  · rw [if_pos h2]
    exact h
  · rw [if_neg h2]
    rcases h with ⟨a, ha, hk⟩
    exact ⟨a, List.mem_append_left _ ha, hk⟩

theorem key_mem_upsert_mono [DecidableEq κ] (key : α → κ) (store : List α)
    (rows : List α) (k : κ) (h : ∃ a ∈ store, key a = k) :
    ∃ a ∈ upsert key store rows, key a = k := by
  induction rows generalizing store with
  | nil => exact h
  | cons r rows ih =>
    rw [upsert, List.foldl_cons]
    exact ih _ (key_mem_insertByKey_mono key store r k h)

theorem upsert_has_batch_keys [DecidableEq κ] (key : α → κ) (store : List α)
    (rows : List α) : ∀ r ∈ rows, ∃ a ∈ upsert key store rows, key a = key r := by
  induction rows generalizing store with
  | nil => intro r hr; simp at hr
  | cons r0 rows ih =>
    intro r hr
    rcases List.mem_cons.1 hr with rfl | hr2
    · rw [upsert, List.foldl_cons]
      exact key_mem_upsert_mono key _ rows (key r)
        (key_mem_insertByKey_self key store r)
    · rw [upsert, List.foldl_cons]
      exact ih (insertByKey key store r0) r hr2

theorem upsert_eq_of_keys_present [DecidableEq κ] (key : α → κ) (store : List α)
    (rows : List α) (h : ∀ r ∈ rows, ∃ a ∈ store, key a = key r) :
    upsert key store rows = store := by
  induction rows generalizing store with
  | nil => rfl
  | cons r rows ih =>
    rw [upsert, List.foldl_cons,
      insertByKey_of_key_mem key store r (h r (List.mem_cons_self r rows))]
    exact ih store fun x hx => h x (List.mem_cons_of_mem r hx)

theorem upsert_idem [DecidableEq κ] (key : α → κ) (store : List α) (rows : List α) :
    upsert key (upsert key store rows) rows = upsert key store rows :=
  upsert_eq_of_keys_present key _ rows (upsert_has_batch_keys key store rows)

/-- C9: ingestion is idempotent.  Re-submitting an already-ingested
batch — raw funding rows, raw open-interest rows, or a cleaned kline
batch — leaves the stored fact list (hence every fact count) unchanged,
because rows whose `(symbol, ts)` (resp. `(symbol, open_time)`) key
already exists are dropped by `ON CONFLICT ... DO NOTHING`. -/
theorem c9_theorem (fs : List FundingRow) (fraws : List RawFundingRow)
    (os : List OiRow) (oraws : List RawOiRow) (ks kb : List KlineRow) :
    ingestFunding (ingestFunding fs fraws) fraws = ingestFunding fs fraws ∧
    ingestOpenInterest (ingestOpenInterest os oraws) oraws = ingestOpenInterest os oraws ∧
    insertKlinesBatch (insertKlinesBatch ks kb) kb = insertKlinesBatch ks kb ∧
    (ingestFunding (ingestFunding fs fraws) fraws).length = (ingestFunding fs fraws).length := by
  refine ⟨upsert_idem _ _ _, upsert_idem _ _ _, upsert_idem _ _ _, ?_⟩
  rw [show ingestFunding (ingestFunding fs fraws) fraws = ingestFunding fs fraws from
    upsert_idem _ _ _]

/-! ## Claim C5: extremeRegimes filtering, ordering, truncation -/

/-- C5: every returned group has at least `minEvents` qualifying
markout rows, the rows are sorted by descending average markout, at
most `topK` rows are returned, and when `minEvents` is 100 while every
symbol has at most 5 qualifying events the result is empty. -/
theorem c5_theorem (db : Db) (s e : Int) (minEvents topK : ℕ)
    (hmin : 1 ≤ minEvents) (htop : 1 ≤ topK) :
    (∀ r ∈ extremeRegimes db s e minEvents topK, minEvents ≤ r.nEvents) ∧
    List.Sorted symAggDesc (extremeRegimes db s e minEvents topK) ∧
    (extremeRegimes db s e minEvents topK).length ≤ topK ∧
    (100 ≤ minEvents →
      (∀ sym ∈ (eventMarkoutRows db (regimeEvents db s e)).map (fun m => m.sym),
        (sqlFilter (fun m : MarkoutRow => m.sym = sym)
          (eventMarkoutRows db (regimeEvents db s e))).length ≤ 5) →
      extremeRegimes db s e minEvents topK = []) := by
  refine ⟨?_, ?_, ?_, ?_⟩
  · intro r hr
    have h1 : r ∈ List.insertionSort symAggDesc (sqlFilter
        (fun r : SymAggRow => minEvents ≤ r.nEvents) _) :=
      (List.take_sublist _ _).subset hr
    have h2 := (List.Perm.mem_iff (List.perm_insertionSort _ _)).1 h1
    exact ((mem_sqlFilter _ _ _).1 h2).2
  · exact List.Pairwise.sublist (List.take_sublist _ _)
      (List.sorted_insertionSort symAggDesc _)
  · exact List.length_take_le _ _
  · intro h100 hcount
    have hkept : sqlFilter (fun r : SymAggRow => minEvents ≤ r.nEvents)
        ((groupBy (fun m : MarkoutRow => m.sym)
          (eventMarkoutRows db (regimeEvents db s e))).map fun kg =>
          (⟨kg.1, avgQ (kg.2.map fun m => m.markout), kg.2.length⟩ : SymAggRow)) = [] := by
      refine sqlFilter_eq_nil _ _ ?_
      intro r hr
      rcases List.mem_map.1 hr with ⟨kg, hkg, rfl⟩
      rcases kg with ⟨k, g⟩
      rcases (mem_groupBy _ _ _ _).1 hkg with ⟨hkmem, rfl⟩
      intro hge
      have hle5 := hcount k hkmem
      simp only at hge
      omega
    show (List.insertionSort symAggDesc _).take topK = []
    rw [hkept]
    simp [List.insertionSort]

/-- The C5 witness dataset: one funding event, no open interest, so no
event can pass the open-interest regime join. -/
def c5Db : Db :=
  { symbols := ["A"]
    funding := [⟨"A", 0, 1 / 10⟩]
    minuteReturns := [⟨"A", 1, 1 / 100⟩]
    openInterest := []
    klines := [] }

theorem c5_witness :
    ((1 : ℕ) ≤ 100 ∧ (1 : ℕ) ≤ 10) ∧ extremeRegimes c5Db 0 10 100 10 = [] := by
  have hE : eventMarkoutRows c5Db (regimeEvents c5Db 0 10) = [] := by
    norm_num [eventMarkoutRows, regimeEvents, dailyRateStats, rollingOiStats, markoutJoin,
      groupBy, dedupFirst, sqlFilter, percentileOf, percentileCont, interpAt, c5Db,
      List.insertionSort, List.orderedInsert, Int.floor_zero, Int.ceil_zero]
  refine ⟨⟨by norm_num, by norm_num⟩, ?_⟩
  refine (c5_theorem c5Db 0 10 100 10 (by norm_num) (by norm_num)).2.2.2 (by norm_num) ?_
  rw [hE]
  intro sym hsym
  simp at hsym

/-! ## Claim C8: exact-timestamp open-interest join -/

/-- C8: the open-interest join of the extreme-regime query matches
snapshots only by exact `(symbol, ts)` equality with the funding
timestamp: an event with no snapshot at that exact instant never
appears among the regime-qualified events, and every regime-qualified
event has a snapshot at exactly its timestamp. -/
theorem c8_theorem (db : Db) (s e : Int) (sym : String) (t : Int)
    (hnone : ∀ o ∈ db.openInterest, ¬ (o.sym = sym ∧ o.ts = t)) :
    (sym, t) ∉ regimeEvents db s e ∧
    ∀ r ∈ regimeEvents db s e, ∃ o ∈ db.openInterest, o.sym = r.1 ∧ o.ts = r.2 := by
  have hall : ∀ r ∈ regimeEvents db s e, ∃ o ∈ db.openInterest, o.sym = r.1 ∧ o.ts = r.2 := by
    intro r hr
    rw [regimeEvents] at hr
    rcases List.mem_flatMap.1 hr with ⟨f, _, hr2⟩
    rcases List.mem_flatMap.1 hr2 with ⟨dr, _, hr3⟩
    rcases List.mem_map.1 hr3 with ⟨ostat, hostat, rfl⟩
    rcases (mem_sqlFilter _ _ _).1 hostat with ⟨hmem, hsym, hts, _⟩
    rw [rollingOiStats] at hmem
    rcases List.mem_map.1 hmem with ⟨o, ho, rfl⟩
    have ho2 : o ∈ db.openInterest := (sqlFilter_sublist _ _).subset ho
    exact ⟨o, ho2, hsym, hts⟩
  refine ⟨?_, hall⟩
  intro hmem
  rcases hall _ hmem with ⟨o, ho, hs, ht⟩
  exact hnone o ho ⟨hs, ht⟩

/-- The C8 witness dataset: a funding event at minute 5 whose only
open-interest snapshot sits at minute 6. -/
def c8Db : Db :=
  { symbols := ["A"]
    funding := [⟨"A", 5, 1⟩]
    minuteReturns := [⟨"A", 6, 1 / 100⟩]
    openInterest := [⟨"A", 6, 100⟩]
    klines := [] }

theorem c8_witness : ("A", (5 : Int)) ∉ regimeEvents c8Db 0 10 :=
  (c8_theorem c8Db 0 10 "A" 5 (by norm_num [c8Db])).1

/-! ## Claim C4: decile uniqueness on a 10-event day -/

theorem sqlFilter_append (p : α → Prop) [DecidablePred p] (l1 l2 : List α) :
    sqlFilter p (l1 ++ l2) = sqlFilter p l1 ++ sqlFilter p l2 := by
  induction l1 with
  | nil => simp [sqlFilter]
  | cons a l ih =>
    by_cases h : p a
    · rw [List.cons_append, sqlFilter, if_pos h, sqlFilter, if_pos h, ih, List.cons_append]
    · rw [List.cons_append, sqlFilter, if_neg h, sqlFilter, if_neg h, ih]

theorem sqlFilter_flatMap (p : β → Prop) [DecidablePred p] (l : List α) (f : α → List β) :
    sqlFilter p (l.flatMap f) = l.flatMap fun a => sqlFilter p (f a) := by
  induction l with
  | nil => simp [sqlFilter]
  | cons a l ih =>
    rw [List.flatMap_cons, List.flatMap_cons, sqlFilter_append, ih]

theorem flatMap_eq_nil_of (l : List α) (f : α → List β)
    (h : ∀ a ∈ l, f a = []) : l.flatMap f = [] := by
  induction l with
  | nil => simp
  | cons a l ih =>
    rw [List.flatMap_cons, h a (List.mem_cons_self a l), List.nil_append]
    exact ih fun x hx => h x (List.mem_cons_of_mem a hx)

theorem flatMap_single [DecidableEq κ] (keys : List κ) (d : κ) (B : κ → List β)
    (hnodup : keys.Nodup) (hd : d ∈ keys) (h : ∀ k ∈ keys, k ≠ d → B k = []) :
    keys.flatMap B = B d := by
  induction keys with
  | nil => simp at hd
  | cons k ks ih =>
    rcases List.nodup_cons.1 hnodup with ⟨hk, hks⟩
    by_cases hkd : k = d
    · subst hkd
      rw [List.flatMap_cons, flatMap_eq_nil_of ks B ?_, List.append_nil]
      intro x hx
      refine h x (List.mem_cons_of_mem k hx) ?_
      intro hxk
      exact hk (hxk ▸ hx)
    · rcases List.mem_cons.1 hd with rfl | hd2
      · exact absurd rfl hkd
      · rw [List.flatMap_cons, h k (List.mem_cons_self k ks) hkd, List.nil_append]
        exact ih hks hd2 fun x hx hxd => h x (List.mem_cons_of_mem k hx) hxd

theorem groupBy_flatMap_filter [DecidableEq κ] (key : α → κ) (l : List α)
    (B : κ × List α → List β) (p : β → Prop) [DecidablePred p] :
    sqlFilter p ((groupBy key l).flatMap B) =
      (dedupFirst (l.map key)).flatMap
        (fun k => sqlFilter p (B (k, sqlFilter (fun a => key a = k) l))) := by
  rw [groupBy, sqlFilter_flatMap]
  induction dedupFirst (l.map key) with
  | nil => simp
  | cons k ks ih =>
    rw [List.map_cons, List.flatMap_cons, List.flatMap_cons, ih]

theorem withNtile_mem (k n i : ℕ) (l : List α) (p : α × ℕ)
    (hp : p ∈ withNtile k n i l) : p.1 ∈ l := by
  induction l generalizing i with
  | nil => simp [withNtile] at hp
  | cons a t ih =>
    rw [withNtile] at hp
    rcases List.mem_cons.1 hp with rfl | hp2
    · exact List.mem_cons_self a t
    · exact List.mem_cons_of_mem a (ih (i + 1) hp2)

theorem withNtile_map_snd (k n : ℕ) (l : List α) (i : ℕ) :
    (withNtile k n i l).map Prod.snd =
      (List.range l.length).map fun j => ntileBucket k n (i + j) := by
  induction l generalizing i with
  | nil => simp [withNtile]
  | cons a t ih =>
    rw [withNtile, List.map_cons, ih (i + 1), List.length_cons, List.range_succ_eq_map,
      List.map_cons, List.map_map]
    congr 1
    refine List.map_congr_left ?_
    intro j _
    simp only [Function.comp]
    congr 1
    omega

theorem withNtile_pairwise (k n i : ℕ) (l : List α) (R : α → α → Prop)
    (h : List.Pairwise R l) :
    List.Pairwise (fun p q : α × ℕ => R p.1 q.1) (withNtile k n i l) := by
  induction l generalizing i with
  | nil => simp [withNtile]
  | cons a t ih =>
    rcases List.pairwise_cons.1 h with ⟨ha, ht⟩
    rw [withNtile]
    refine List.pairwise_cons.2 ⟨?_, ih (i + 1) ht⟩
    intro q hq
    exact ha q.1 (withNtile_mem k n (i + 1) t q hq)

theorem ntileBucket_self (k pos : ℕ) (hk : 0 < k) : ntileBucket k k pos = pos + 1 := by
  rw [ntileBucket, Nat.mod_self, Nat.div_self hk]
  simp

instance : IsTotal FundingRow (fun a b : FundingRow => a.rate ≤ b.rate) :=
  ⟨fun a b => le_total a.rate b.rate⟩

instance : IsTrans FundingRow (fun a b : FundingRow => a.rate ≤ b.rate) :=
  ⟨fun _ _ _ h1 h2 => le_trans h1 h2⟩

/-- C4 amended: whenever a calendar day carries exactly 10 in-range
funding events (across all symbols — the NTILE partition is
`PARTITION BY DATE(ts)` only), the decile assignment gives the day's
events exactly the deciles 1..10, each once, in ascending rate
order. -/
theorem c4_theorem (db : Db) (s e d : Int)
    (hlen : (sqlFilter (fun a : FundingRow => dateOf a.ts = d)
      (sqlFilter (fun f : FundingRow => s ≤ f.ts ∧ f.ts ≤ e) db.funding)).length = 10) :
    ((sqlFilter (fun p : FundingRow × ℕ => dateOf p.1.ts = d)
        (fundingWithDecile db s e)).map Prod.snd) = (List.range 10).map (fun j => j + 1) ∧
    ((sqlFilter (fun p : FundingRow × ℕ => dateOf p.1.ts = d)
        (fundingWithDecile db s e)).map Prod.snd).Nodup ∧
    (∀ x ∈ (sqlFilter (fun p : FundingRow × ℕ => dateOf p.1.ts = d)
        (fundingWithDecile db s e)).map Prod.snd, 1 ≤ x ∧ x ≤ 10) ∧
    List.Pairwise (fun p q : FundingRow × ℕ => p.1.rate ≤ q.1.rate)
      (sqlFilter (fun p : FundingRow × ℕ => dateOf p.1.ts = d) (fundingWithDecile db s e)) := by
  set inR := sqlFilter (fun f : FundingRow => s ≤ f.ts ∧ f.ts ≤ e) db.funding with hinR
  set gd := sqlFilter (fun a : FundingRow => dateOf a.ts = d) inR with hgd
  have hgd_ne : gd ≠ [] := by
    intro h
    rw [h] at hlen
    simp at hlen
  have hd_mem : d ∈ dedupFirst (inR.map fun f => dateOf f.ts) := by
    rcases List.exists_mem_of_ne_nil gd hgd_ne with ⟨x, hx⟩
    rcases (mem_sqlFilter _ _ _).1 hx with ⟨hx1, hx2⟩
    exact (mem_dedupFirst _ _).2 (List.mem_map.2 ⟨x, hx1, hx2⟩)
  have hblock : ∀ k : Int,
      sqlFilter (fun p : FundingRow × ℕ => dateOf p.1.ts = d)
        (withNtile 10
          (sqlFilter (fun a : FundingRow => dateOf a.ts = k) inR).length 0
          (List.insertionSort (fun a b : FundingRow => a.rate ≤ b.rate)
            (sqlFilter (fun a : FundingRow => dateOf a.ts = k) inR))) =
      if k = d then
        withNtile 10
          (sqlFilter (fun a : FundingRow => dateOf a.ts = k) inR).length 0
          (List.insertionSort (fun a b : FundingRow => a.rate ≤ b.rate)
            (sqlFilter (fun a : FundingRow => dateOf a.ts = k) inR))
      else [] := by
    intro k
    have hmemd : ∀ p : FundingRow × ℕ, p ∈ withNtile 10
        (sqlFilter (fun a : FundingRow => dateOf a.ts = k) inR).length 0
        (List.insertionSort (fun a b : FundingRow => a.rate ≤ b.rate)
          (sqlFilter (fun a : FundingRow => dateOf a.ts = k) inR)) →
        dateOf p.1.ts = k := by
      intro p hp
      have h1 := withNtile_mem _ _ _ _ p hp
      have h2 := (List.Perm.mem_iff (List.perm_insertionSort _ _)).1 h1
      exact ((mem_sqlFilter _ _ _).1 h2).2
    by_cases hkd : k = d
    · subst hkd
      rw [if_pos rfl]
      exact sqlFilter_all _ _ fun p hp => hmemd p hp
    · rw [if_neg hkd]
      refine sqlFilter_eq_nil _ _ ?_
      intro p hp h
      exact hkd ((hmemd p hp).symm.trans h)
  have hout : sqlFilter (fun p : FundingRow × ℕ => dateOf p.1.ts = d)
      (fundingWithDecile db s e) =
      withNtile 10 gd.length 0
        (List.insertionSort (fun a b : FundingRow => a.rate ≤ b.rate) gd) := by
    rw [fundingWithDecile, ← hinR, groupBy_flatMap_filter]
    rw [flatMap_single _ d _ (nodup_dedupFirst _) hd_mem ?_]
    · simp only
      rw [hblock d, if_pos rfl, ← hgd]
    · intro k _ hkd
      simp only
      rw [hblock k, if_neg hkd]
  have hsortlen : (List.insertionSort (fun a b : FundingRow => a.rate ≤ b.rate) gd).length
      = 10 := by
    rw [(List.perm_insertionSort _ _).length_eq, hlen]
  have hsnd : (sqlFilter (fun p : FundingRow × ℕ => dateOf p.1.ts = d)
      (fundingWithDecile db s e)).map Prod.snd = (List.range 10).map (fun j => j + 1) := by
    rw [hout, withNtile_map_snd, hsortlen, hlen]
    refine List.map_congr_left ?_
    intro j _
    rw [Nat.zero_add, ntileBucket_self 10 j (by norm_num)]
  refine ⟨hsnd, ?_, ?_, ?_⟩
  · rw [hsnd]
    refine List.Nodup.map ?_ (List.nodup_range 10)
    intro a b hab
    simpa using hab
  · intro x hx
    rw [hsnd] at hx
    rcases List.mem_map.1 hx with ⟨j, hj, rfl⟩
    have := List.mem_range.1 hj
    omega
  · rw [hout]
    exact withNtile_pairwise _ _ _ _ _
      (List.sorted_insertionSort (fun a b : FundingRow => a.rate ≤ b.rate) gd)

theorem dateOf_eq_zero (t : Int) (h1 : 0 ≤ t) (h2 : t < 1440) : dateOf t = 0 := by
  rw [dateOf, Int.fdiv_eq_ediv t (by norm_num)]
  exact Int.ediv_eq_zero_of_lt h1 h2

/-- The C4 witness dataset: a single calendar day holding exactly 10
funding events with distinct rates. -/
def c4wDb : Db :=
  { symbols := ["S"]
    funding :=
      [⟨"S", 0, 1⟩, ⟨"S", 1, 2⟩, ⟨"S", 2, 3⟩, ⟨"S", 3, 4⟩, ⟨"S", 4, 5⟩,
       ⟨"S", 5, 6⟩, ⟨"S", 6, 7⟩, ⟨"S", 7, 8⟩, ⟨"S", 8, 9⟩, ⟨"S", 9, 10⟩]
    minuteReturns := []
    openInterest := []
    klines := [] }

theorem c4_witness :
    ((sqlFilter (fun a : FundingRow => dateOf a.ts = 0)
      (sqlFilter (fun f : FundingRow => 0 ≤ f.ts ∧ f.ts ≤ 2000) c4wDb.funding)).length = 10) ∧
    ((sqlFilter (fun p : FundingRow × ℕ => dateOf p.1.ts = 0)
        (fundingWithDecile c4wDb 0 2000)).map Prod.snd) =
      (List.range 10).map (fun j => j + 1) := by
  have hlen : (sqlFilter (fun a : FundingRow => dateOf a.ts = 0)
      (sqlFilter (fun f : FundingRow => 0 ≤ f.ts ∧ f.ts ≤ 2000) c4wDb.funding)).length = 10 := by
    norm_num [c4wDb, sqlFilter, dateOf_eq_zero]
  exact ⟨hlen, (c4_theorem c4wDb 0 2000 0 hlen).1⟩

/-- The C4 counterexample dataset: symbol AAA has exactly 10 funding
events with distinct rates on day 0, but symbol BBB adds 10 more events
to the same calendar day — the NTILE partition. -/
def c4Db : Db :=
  { symbols := ["AAA", "BBB"]
    funding :=
      [⟨"AAA", 0, 1⟩, ⟨"AAA", 1, 2⟩, ⟨"AAA", 2, 3⟩, ⟨"AAA", 3, 4⟩, ⟨"AAA", 4, 5⟩,
       ⟨"AAA", 5, 6⟩, ⟨"AAA", 6, 7⟩, ⟨"AAA", 7, 8⟩, ⟨"AAA", 8, 9⟩, ⟨"AAA", 9, 10⟩,
       ⟨"BBB", 10, 101⟩, ⟨"BBB", 11, 102⟩, ⟨"BBB", 12, 103⟩, ⟨"BBB", 13, 104⟩,
       ⟨"BBB", 14, 105⟩, ⟨"BBB", 15, 106⟩, ⟨"BBB", 16, 107⟩, ⟨"BBB", 17, 108⟩,
       ⟨"BBB", 18, 109⟩, ⟨"BBB", 19, 110⟩]
    minuteReturns := []
    openInterest := []
    klines := [] }

theorem bbb_ne_aaa : ("BBB" : String) = "AAA" ↔ False := by simp

/-- C4 counterexample: symbol AAA has exactly 10 funding events with
distinct rates on one calendar day (the claim's premise), yet because
the partition is the whole day — shared with BBB's 10 events — AAA's
events receive deciles `[1,1,2,2,3,3,4,4,5,5]`, not ten distinct
values. -/
theorem c4_counterexample :
    ((sqlFilter (fun p : FundingRow × ℕ => p.1.sym = "AAA")
        (fundingWithDecile c4Db 0 2000)).map Prod.snd) = [1, 1, 2, 2, 3, 3, 4, 4, 5, 5] ∧
    (sqlFilter (fun f : FundingRow => f.sym = "AAA" ∧ dateOf f.ts = 0) c4Db.funding).length
      = 10 ∧
    ((sqlFilter (fun f : FundingRow => f.sym = "AAA" ∧ dateOf f.ts = 0) c4Db.funding).map
        (fun f => f.rate)).Nodup ∧
    ¬ ([1, 1, 2, 2, 3, 3, 4, 4, 5, 5] : List ℕ).Nodup := by
  refine ⟨?_, ?_, ?_, by decide⟩
  · norm_num [c4Db, fundingWithDecile, sqlFilter, groupBy, dedupFirst, dateOf_eq_zero,
      List.insertionSort, List.orderedInsert, withNtile, ntileBucket, bbb_ne_aaa]
  · norm_num [c4Db, sqlFilter, dateOf_eq_zero, bbb_ne_aaa]
  · norm_num [c4Db, sqlFilter, dateOf_eq_zero, List.nodup_cons, bbb_ne_aaa]

/-! ## Claim C6: percentileCont monotonicity and endpoints -/

theorem sorted_getD_mono (xs : List ℚ) (hs : List.Sorted (· ≤ ·) xs) (a b : ℕ)
    (hab : a ≤ b) (hb : b < xs.length) : xs.getD a 0 ≤ xs.getD b 0 := by
  have ha : a < xs.length := lt_of_le_of_lt hab hb
  rw [List.getD_eq_getElem xs 0 ha, List.getD_eq_getElem xs 0 hb]
  rcases Nat.lt_or_ge a b with h | h
  · exact List.pairwise_iff_getElem.1 hs a b ha hb h
  · have hab2 : a = b := le_antisymm hab h
    subst hab2
    exact le_refl _

theorem interp_idx_facts (xs : List ℚ) (hne : xs ≠ []) (i : ℚ) (hi0 : 0 ≤ i)
    (hin : i ≤ ((xs.length - 1 : ℕ) : ℚ)) :
    ⌊i⌋.toNat < xs.length ∧ ⌈i⌉.toNat < xs.length ∧ ⌊i⌋.toNat ≤ ⌈i⌉.toNat ∧ 0 ≤ ⌊i⌋ := by
  have hn : 0 < xs.length := List.length_pos.2 hne
  have hfl0 : 0 ≤ ⌊i⌋ := Int.le_floor.2 (by exact_mod_cast hi0)
  have hceil_le : ⌈i⌉ ≤ ((xs.length - 1 : ℕ) : ℤ) := Int.ceil_le.2 (by exact_mod_cast hin)
  have hfl_le_ceil : ⌊i⌋ ≤ ⌈i⌉ := Int.floor_le_ceil i
  have h1 := Int.toNat_le_toNat hceil_le
  have h2 := Int.toNat_le_toNat hfl_le_ceil
  have h3 : (((xs.length - 1 : ℕ) : ℤ)).toNat = xs.length - 1 := by simp
  refine ⟨by omega, by omega, h2, hfl0⟩

theorem interpAt_bounds (xs : List ℚ) (hs : List.Sorted (· ≤ ·) xs) (hne : xs ≠ [])
    (i : ℚ) (hi0 : 0 ≤ i) (hin : i ≤ ((xs.length - 1 : ℕ) : ℚ)) :
    xs.getD ⌊i⌋.toNat 0 ≤ interpAt xs i ∧ interpAt xs i ≤ xs.getD ⌈i⌉.toNat 0 := by
  obtain ⟨hlo, hhi, hlh, _⟩ := interp_idx_facts xs hne i hi0 hin
  have hxlh : xs.getD ⌊i⌋.toNat 0 ≤ xs.getD ⌈i⌉.toNat 0 := sorted_getD_mono xs hs _ _ hlh hhi
  have hf0 : 0 ≤ i - ⌊i⌋ := sub_nonneg.2 (Int.floor_le i)
  have hf1 : i - ⌊i⌋ ≤ 1 := by
    have := Int.lt_floor_add_one i
    linarith
  unfold interpAt
  constructor
  · nlinarith [hxlh, hf0, hf1]
  · nlinarith [hxlh, hf0, hf1]

theorem interpAt_mono (xs : List ℚ) (hs : List.Sorted (· ≤ ·) xs) (hne : xs ≠ [])
    (i j : ℚ) (hi0 : 0 ≤ i) (hij : i ≤ j) (hjn : j ≤ ((xs.length - 1 : ℕ) : ℚ)) :
    interpAt xs i ≤ interpAt xs j := by
  have hj0 : 0 ≤ j := le_trans hi0 hij
  have hin : i ≤ ((xs.length - 1 : ℕ) : ℚ) := le_trans hij hjn
  obtain ⟨hloiF, hhiiF, _, hfl0i⟩ := interp_idx_facts xs hne i hi0 hin
  obtain ⟨hlojF, hhijF, _, hfl0j⟩ := interp_idx_facts xs hne j hj0 hjn
  obtain ⟨hloi, hhii⟩ := interpAt_bounds xs hs hne i hi0 hin
  obtain ⟨hloj, hhij2⟩ := interpAt_bounds xs hs hne j hj0 hjn
  have hflij : ⌊i⌋ ≤ ⌊j⌋ := Int.floor_mono hij
  rcases lt_or_eq_of_le hflij with hlt | heq
  · have h1 : ⌈i⌉ ≤ ⌊j⌋ := by
      have := Int.ceil_le_floor_add_one i
      omega
    have h2 : xs.getD ⌈i⌉.toNat 0 ≤ xs.getD ⌊j⌋.toNat 0 :=
      sorted_getD_mono xs hs _ _ (Int.toNat_le_toNat h1) hlojF
    exact le_trans hhii (le_trans h2 hloj)
  · rcases eq_or_lt_of_le hij with rfl | hij2
    · exact le_refl _
    · by_cases hfi : (⌊i⌋ : ℚ) = i
      · have hEq : interpAt xs i = xs.getD ⌊i⌋.toNat 0 := by
          unfold interpAt
          rw [show i - (⌊i⌋ : ℚ) = 0 from by rw [hfi]; exact sub_self i]
          ring
        rw [hEq, heq]
        exact hloj
      · have hil : (⌊i⌋ : ℚ) < i := lt_of_le_of_ne (Int.floor_le i) hfi
        have hci : ⌈i⌉ = ⌊i⌋ + 1 := by
          have hlt2 : ⌊i⌋ < ⌈i⌉ := by
            exact_mod_cast lt_of_lt_of_le hil (Int.le_ceil i)
          have := Int.ceil_le_floor_add_one i
          omega
        have hjl : (⌊j⌋ : ℚ) < j := by
          rw [← heq]
          exact lt_of_le_of_lt (Int.floor_le i) hij2
        have hcj : ⌈j⌉ = ⌊j⌋ + 1 := by
          have hlt2 : ⌊j⌋ < ⌈j⌉ := by
            exact_mod_cast lt_of_lt_of_le hjl (Int.le_ceil j)
          have := Int.ceil_le_floor_add_one j
          omega
        have hhiBound : (⌊j⌋ + 1).toNat < xs.length := by
          rw [← hcj]
          exact hhijF
        have hxlh : xs.getD ⌊j⌋.toNat 0 ≤ xs.getD (⌊j⌋ + 1).toNat 0 := by
          refine sorted_getD_mono xs hs _ _ (Int.toNat_le_toNat (by omega)) hhiBound
        unfold interpAt
        rw [hci, hcj, heq]
        nlinarith [mul_nonneg (le_of_lt (sub_pos.2 hij2)) (sub_nonneg.2 hxlh)]

/-- C6: on a sorted nonempty value list, `percentileCont` is monotone
nondecreasing in the fraction, `percentileCont(S, 0)` is the head (the
minimum) and `percentileCont(S, 1)` the last element (the maximum) of
the sorted list, which bound every member. -/
theorem c6_theorem (xs : List ℚ) (p q : ℚ) (hs : List.Sorted (· ≤ ·) xs) (hne : xs ≠ [])
    (h0 : 0 ≤ p) (hpq : p ≤ q) (h1 : q ≤ 1) :
    (percentileCont xs p).getD 0 ≤ (percentileCont xs q).getD 0 ∧
    percentileCont xs 0 = xs.head? ∧
    percentileCont xs 1 = xs.getLast? ∧
    (∀ a ∈ xs, xs.head?.getD 0 ≤ a ∧ a ≤ xs.getLast?.getD 0) := by
  have hEmpty : xs.isEmpty = false := by
    cases xs with
    | nil => exact absurd rfl hne
    | cons a t => rfl
  have hn1 : (0 : ℚ) ≤ ((xs.length - 1 : ℕ) : ℚ) := Nat.cast_nonneg _
  refine ⟨?_, ?_, ?_, ?_⟩
  · rw [percentileCont, if_neg (by simp [hEmpty]), percentileCont, if_neg (by simp [hEmpty])]
    simp only [Option.getD_some]
    refine interpAt_mono xs hs hne _ _ (mul_nonneg h0 hn1) ?_ ?_
    · exact mul_le_mul_of_nonneg_right hpq hn1
    · calc q * ((xs.length - 1 : ℕ) : ℚ) ≤ 1 * ((xs.length - 1 : ℕ) : ℚ) :=
          mul_le_mul_of_nonneg_right h1 hn1
        _ = ((xs.length - 1 : ℕ) : ℚ) := one_mul _
  · cases xs with
    | nil => exact absurd rfl hne
    | cons a t =>
      rw [percentileCont, if_neg (by simp)]
      rw [zero_mul]
      unfold interpAt
      rw [Int.floor_zero, Int.ceil_zero]
      simp only [Int.toNat_zero, List.getD_cons_zero, List.head?_cons]
      congr 1
      push_cast
      ring
  · cases xs with
    | nil => exact absurd rfl hne
    | cons a t =>
      rw [percentileCont, if_neg (by simp)]
      rw [one_mul]
      unfold interpAt
      rw [show (((a :: t).length - 1 : ℕ) : ℚ) = ((t.length : ℕ) : ℚ) from by simp]
      rw [Int.floor_natCast, Int.ceil_natCast]
      have hgetD : (a :: t).getD ((t.length : ℤ)).toNat 0 =
          (a :: t).getLast (List.cons_ne_nil a t) := by
        rw [List.getD_eq_getElem _ _ (by simp), List.getLast_eq_getElem]
        congr 1
      rw [List.getLast?_eq_getLast _ (List.cons_ne_nil a t)]
      rw [hgetD]
      congr 1
      push_cast
      ring
  · intro a ha
    rcases List.mem_iff_getElem.1 ha with ⟨k, hk, rfl⟩
    have hhead : xs.head?.getD 0 = xs.getD 0 0 := by
      cases xs with
      | nil => simp at hk
      | cons b t => rfl
    have hlastD : xs.getLast?.getD 0 = xs.getD (xs.length - 1) 0 := by
      cases xs with
      | nil => simp at hk
      | cons b t =>
        rw [List.getLast?_eq_getLast _ (List.cons_ne_nil b t), Option.getD_some,
          List.getLast_eq_getElem, List.getD_eq_getElem _ _ (by simp)]
    constructor
    · rw [hhead]
      have := sorted_getD_mono xs hs 0 k (Nat.zero_le k) hk
      rwa [List.getD_eq_getElem xs 0 hk] at this
    · rw [hlastD]
      have hkle : k ≤ xs.length - 1 := by omega
      have hlt : xs.length - 1 < xs.length := by omega
      have := sorted_getD_mono xs hs k (xs.length - 1) hkle hlt
      rwa [List.getD_eq_getElem xs 0 hk] at this

theorem c6_witness :
    (List.Sorted (fun a b : ℚ => a ≤ b) [1, 2, 4] ∧ (0 : ℚ) ≤ 1 / 4 ∧
      (1 : ℚ) / 4 ≤ 1 / 2 ∧ (1 : ℚ) / 2 ≤ 1) ∧
    (percentileCont [1, 2, 4] (1 / 4)).getD 0 ≤ (percentileCont [1, 2, 4] (1 / 2)).getD 0 ∧
    percentileCont [(1 : ℚ), 2, 4] 0 = [(1 : ℚ), 2, 4].head? ∧
    percentileCont [(1 : ℚ), 2, 4] 1 = [(1 : ℚ), 2, 4].getLast? := by
  have hs : List.Sorted (fun a b : ℚ => a ≤ b) [1, 2, 4] := by
    norm_num [List.sorted_cons]
  have h := c6_theorem [1, 2, 4] (1 / 4) (1 / 2) hs (by simp) (by norm_num)
    (by norm_num) (by norm_num)
  exact ⟨⟨hs, by norm_num, by norm_num, by norm_num⟩, h.1, h.2.1, h.2.2.1⟩

/-! ## Claim C7: undefined standard deviation propagates as null -/

theorem avgOpt_all_none (l : List (Option ℚ)) (h : ∀ x ∈ l, x = none) :
    avgOpt l = none := by
  rw [avgOpt, if_pos]
  refine List.filterMap_eq_nil.2 ?_
  intro a ha
  rw [h a ha]
  rfl

theorem eventRv30_row (db : Db) (s e : Int) (sym : String) (t : Int)
    (hkey : (sym, t) ∈ (rv30Join db s e).map (fun fm => (fm.1.sym, fm.1.ts))) :
    (⟨sym, t, stddevSampVar (rv30Samples db s e sym t)⟩ : RvRow) ∈ eventRv30 db s e := by
  refine List.mem_map.2 ⟨((sym, t),
    sqlFilter (fun fm : FundingRow × ReturnRow => (fm.1.sym, fm.1.ts) = (sym, t))
      (rv30Join db s e)), ?_, rfl⟩
  exact (mem_groupBy _ _ _ _).2 ⟨hkey, rfl⟩

theorem avgRv30_row (db : Db) (s e : Int) (sym : String)
    (h : sym ∈ (eventRv30 db s e).map (fun r => r.sym)) :
    (⟨sym,
      avgOpt ((sqlFilter (fun r : RvRow => r.sym = sym) (eventRv30 db s e)).map
        (fun r => r.rv)),
      (sqlFilter (fun r : RvRow => r.sym = sym) (eventRv30 db s e)).length⟩ : SymRvRow) ∈
      avgRv30 db s e := by
  unfold avgRv30
  refine (List.Perm.mem_iff (List.perm_insertionSort _ _)).2 ?_
  exact List.mem_map.2 ⟨(sym,
    sqlFilter (fun r : RvRow => r.sym = sym) (eventRv30 db s e)),
    (mem_groupBy _ _ _ _).2 ⟨h, rfl⟩, rfl⟩

/-- C7: a funding event whose 30-minute volatility window holds fewer
than two samples gets an explicitly null `STDDEV_SAMP` aggregate — not
zero, not an error — its row still appears in `event_rv`, the symbol
still gets a result row in the per-symbol query, and when all of a
symbol's events have null volatility the symbol's average is itself
null while its event count is preserved. -/
theorem c7_theorem (db : Db) (s e : Int) (sym : String) (t : Int)
    (hkey : (sym, t) ∈ (rv30Join db s e).map (fun fm => (fm.1.sym, fm.1.ts)))
    (hfew : (rv30Samples db s e sym t).length < 2) :
    (⟨sym, t, none⟩ : RvRow) ∈ eventRv30 db s e ∧
    stddevSampVar (rv30Samples db s e sym t) = none ∧
    (∃ row ∈ avgRv30 db s e, row.sym = sym) ∧
    ((∀ r ∈ eventRv30 db s e, r.sym = sym → r.rv = none) →
      (⟨sym, none,
        (sqlFilter (fun r : RvRow => r.sym = sym) (eventRv30 db s e)).length⟩ :
        SymRvRow) ∈ avgRv30 db s e) := by
  have hstd : stddevSampVar (rv30Samples db s e sym t) = none := by
    rw [stddevSampVar, if_pos hfew]
  have hmem1 : (⟨sym, t, none⟩ : RvRow) ∈ eventRv30 db s e := by
    have := eventRv30_row db s e sym t hkey
    rwa [hstd] at this
  have hsym : sym ∈ (eventRv30 db s e).map (fun r => r.sym) :=
    List.mem_map.2 ⟨⟨sym, t, none⟩, hmem1, rfl⟩
  refine ⟨hmem1, hstd, ⟨_, avgRv30_row db s e sym hsym, rfl⟩, ?_⟩
  intro hall
  have hnone : avgOpt ((sqlFilter (fun r : RvRow => r.sym = sym)
      (eventRv30 db s e)).map (fun r => r.rv)) = none := by
    refine avgOpt_all_none _ ?_
    intro x hx
    rcases List.mem_map.1 hx with ⟨r, hr, rfl⟩
    rcases (mem_sqlFilter _ _ _).1 hr with ⟨hr1, hr2⟩
    exact hall r hr1 hr2
  have := avgRv30_row db s e sym hsym
  rwa [hnone] at this

/-- The C7 witness dataset: one funding event whose volatility window
holds exactly one minute-return sample. -/
def c7Db : Db :=
  { symbols := ["A"]
    funding := [⟨"A", 100, 0⟩]
    minuteReturns := [⟨"A", 110, 5⟩]
    openInterest := []
    klines := [] }

theorem c7_witness :
    (⟨"A", 100, none⟩ : RvRow) ∈ eventRv30 c7Db 0 1000 ∧
    (⟨"A", none, 1⟩ : SymRvRow) ∈ avgRv30 c7Db 0 1000 := by
  have hkey : (("A", (100 : Int))) ∈ (rv30Join c7Db 0 1000).map
      (fun fm => (fm.1.sym, fm.1.ts)) := by
    norm_num [rv30Join, sqlFilter, c7Db]
  have hfew : (rv30Samples c7Db 0 1000 "A" 100).length < 2 := by
    norm_num [rv30Samples, rv30Join, sqlFilter, c7Db]
  have h := c7_theorem c7Db 0 1000 "A" 100 hkey hfew
  refine ⟨h.1, ?_⟩
  have hall : ∀ r ∈ eventRv30 c7Db 0 1000, r.sym = "A" → r.rv = none := by
    have hev : eventRv30 c7Db 0 1000 = [⟨"A", 100, none⟩] := by
      norm_num [eventRv30, rv30Join, sqlFilter, groupBy, dedupFirst, stddevSampVar, c7Db]
    rw [hev]
    intro r hr _
    rcases List.mem_singleton.1 hr with rfl
    rfl
  have h4 := h.2.2.2 hall
  have hlen : (sqlFilter (fun r : RvRow => r.sym = "A") (eventRv30 c7Db 0 1000)).length
      = 1 := by
    norm_num [eventRv30, rv30Join, sqlFilter, groupBy, dedupFirst, stddevSampVar, c7Db]
  rwa [hlen] at h4

/-! ## Claim C10: symbolOverview row presence and funding counts -/

theorem dedupFirst_length_card [DecidableEq α] (m : List α) :
    (dedupFirst m).length = m.toFinset.card := by
  have h1 : (dedupFirst m).toFinset = m.toFinset := by
    ext x
    simp [List.mem_toFinset, mem_dedupFirst]
  rw [← h1, List.toFinset_card_of_nodup (nodup_dedupFirst m)]

theorem exists_group_iff [DecidableEq κ] (key : α → κ) (l : List α) (k : κ) :
    (∃ kg ∈ groupBy key l, kg.1 = k) ↔ k ∈ l.map key := by
  constructor
  · rintro ⟨⟨k2, g⟩, hkg, rfl⟩
    exact ((mem_groupBy key l k2 g).1 hkg).1
  · intro hk
    exact ⟨(k, sqlFilter (fun a => key a = k) l),
      (mem_groupBy key l k _).2 ⟨hk, rfl⟩, rfl⟩

theorem overviewJoin_parts (db : Db) (sy : String) (ko : Option KlineRow)
    (fo : Option FundingRow) (h : (sy, ko, fo) ∈ overviewJoin db) :
    sy ∈ db.symbols ∧
    (∀ k, ko = some k → k ∈ db.klines ∧ k.sym = sy) ∧
    (∀ f, fo = some f → f ∈ db.funding ∧ f.sym = sy) := by
  unfold overviewJoin at h
  rcases List.mem_flatMap.1 h with ⟨sy2, hsy2, hmem⟩
  simp only at hmem
  rcases List.mem_flatMap.1 hmem with ⟨ko2, hko2, hmem2⟩
  rcases List.mem_map.1 hmem2 with ⟨fo2, hfo2, heq⟩
  have hsy : sy = sy2 := (congrArg Prod.fst heq).symm
  have hko : ko = ko2 := (congrArg (fun p => p.2.1) heq).symm
  have hfo : fo = fo2 := (congrArg (fun p => p.2.2) heq).symm
  subst hsy
  subst hko
  subst hfo
  refine ⟨hsy2, ?_, ?_⟩
  · intro k hk
    subst hk
    by_cases hks : sqlFilter (fun k2 : KlineRow => k2.sym = sy) db.klines = []
    · rw [if_pos hks] at hko2
      simp at hko2
    · rw [if_neg hks] at hko2
      rcases List.mem_map.1 hko2 with ⟨k2, hk2, hk2e⟩
      rcases Option.some.injEq _ _ ▸ hk2e with rfl
      have := (mem_sqlFilter _ _ _).1 hk2
      exact ⟨this.1, this.2⟩
  · intro f hf
    subst hf
    by_cases hfs : sqlFilter (fun f2 : FundingRow => f2.sym = sy) db.funding = []
    · rw [if_pos hfs] at hfo2
      simp at hfo2
    · rw [if_neg hfs] at hfo2
      rcases List.mem_map.1 hfo2 with ⟨f2, hf2, hf2e⟩
      rcases Option.some.injEq _ _ ▸ hf2e with rfl
      have := (mem_sqlFilter _ _ _).1 hf2
      exact ⟨this.1, this.2⟩

theorem overviewJoin_intro (db : Db) (sy : String) (hsy : sy ∈ db.symbols)
    (k : KlineRow) (hk : k ∈ sqlFilter (fun k2 : KlineRow => k2.sym = sy) db.klines)
    (fo : Option FundingRow)
    (hf : (∃ f, fo = some f ∧ f ∈ sqlFilter (fun f2 : FundingRow => f2.sym = sy) db.funding)
      ∨ (fo = none ∧ sqlFilter (fun f2 : FundingRow => f2.sym = sy) db.funding = [])) :
    (sy, some k, fo) ∈ overviewJoin db := by
  unfold overviewJoin
  refine List.mem_flatMap.2 ⟨sy, hsy, ?_⟩
  simp only
  have hks : sqlFilter (fun k2 : KlineRow => k2.sym = sy) db.klines ≠ [] := by
    intro hnil
    rw [hnil] at hk
    simp at hk
  rw [if_neg hks]
  refine List.mem_flatMap.2 ⟨some k, List.mem_map.2 ⟨k, hk, rfl⟩, ?_⟩
  rcases hf with ⟨f, rfl, hfmem⟩ | ⟨rfl, hfs⟩
  · have hne : sqlFilter (fun f2 : FundingRow => f2.sym = sy) db.funding ≠ [] := by
      intro hnil
      rw [hnil] at hfmem
      simp at hfmem
    rw [if_neg hne]
    exact List.mem_map.2 ⟨some f, List.mem_map.2 ⟨f, hfmem, rfl⟩, rfl⟩
  · rw [if_pos hfs]
    exact List.mem_map.2 ⟨none, List.mem_singleton.2 rfl, rfl⟩

/-- C10: `symbolOverview` (QUERY_7 and the identical slow variant)
returns a row for a symbol exactly when the symbol has at least one
kline with `open_time` in the requested range — the `WHERE` on the
kline side defeats the `LEFT JOIN` — and each returned row's
`n_funding_events` counts the symbol's distinct funding timestamps
over the entire history, not restricted to the range. -/
theorem c10_theorem (db : Db) (s e : Int) (sym : String) :
    ((∃ row ∈ symbolOverview db s e, row.sym = sym) ↔
      (sym ∈ db.symbols ∧
        ∃ k ∈ db.klines, k.sym = sym ∧ s ≤ k.openTime ∧ k.openTime ≤ e)) ∧
    (∀ row ∈ symbolOverview db s e, row.nFundingEvents =
      ((sqlFilter (fun f : FundingRow => f.sym = row.sym) db.funding).map
        (fun f => f.ts)).toFinset.card) := by
  constructor
  · have hIff1 : (∃ row ∈ symbolOverview db s e, row.sym = sym) ↔
        ∃ r ∈ sqlFilter (fun r : String × Option KlineRow × Option FundingRow =>
          inRangeK s e r.2.1) (overviewJoin db), r.1 = sym := by
      unfold symbolOverview
      constructor
      · rintro ⟨row, hrow, rfl⟩
        have h2 := (List.Perm.mem_iff (List.perm_insertionSort _ _)).1 hrow
        rcases List.mem_map.1 h2 with ⟨⟨k, g⟩, hkg, rfl⟩
        have hkmem := ((mem_groupBy _ _ _ _).1 hkg).1
        rcases List.mem_map.1 hkmem with ⟨r, hr, hrk⟩
        exact ⟨r, hr, hrk⟩
      · rintro ⟨r, hr, rfl⟩
        have hkey : r.1 ∈ (sqlFilter (fun r : String × Option KlineRow × Option FundingRow =>
            inRangeK s e r.2.1) (overviewJoin db)).map
            (fun r : String × Option KlineRow × Option FundingRow => r.1) :=
          List.mem_map.2 ⟨r, hr, rfl⟩
        rcases (exists_group_iff _ _ _).2 hkey with ⟨⟨k, g⟩, hkg, hk1⟩
        refine ⟨⟨k, (dedupFirst (g.filterMap fun r => r.2.1.map fun k2 => k2.openTime)).length,
          (dedupFirst (g.filterMap fun r => r.2.2.map fun f => f.ts)).length,
          avgQ (g.filterMap fun r => r.2.1.map fun k2 => k2.volume)⟩, ?_, hk1⟩
        refine (List.Perm.mem_iff (List.perm_insertionSort _ _)).2 ?_
        exact List.mem_map.2 ⟨(k, g), hkg, rfl⟩
    rw [hIff1]
    constructor
    · rintro ⟨r, hr, rfl⟩
      rcases (mem_sqlFilter _ _ _).1 hr with ⟨hjoin, hrange⟩
      rcases r with ⟨sy, ko, fo⟩
      obtain ⟨hsy, hkpart, _⟩ := overviewJoin_parts db sy ko fo hjoin
      cases ko with
      | none => exact absurd hrange (by simp [inRangeK])
      | some k =>
        obtain ⟨hkmem, hksym⟩ := hkpart k rfl
        exact ⟨hsy, k, hkmem, hksym, hrange.1, hrange.2⟩
    · rintro ⟨hsy, k, hk, hksym, hs, he⟩
      have hkf : k ∈ sqlFilter (fun k2 : KlineRow => k2.sym = sym) db.klines :=
        (mem_sqlFilter _ _ _).2 ⟨hk, hksym⟩
      have hffAny : (∃ f, f ∈ sqlFilter (fun f2 : FundingRow => f2.sym = sym) db.funding)
          ∨ sqlFilter (fun f2 : FundingRow => f2.sym = sym) db.funding = [] := by
        cases hfs : sqlFilter (fun f2 : FundingRow => f2.sym = sym) db.funding with
        | nil => exact Or.inr rfl
        | cons f0 t => exact Or.inl ⟨f0, hfs ▸ List.mem_cons_self f0 t⟩
      rcases hffAny with ⟨f0, hf0⟩ | hfs
      · refine ⟨(sym, some k, some f0), (mem_sqlFilter _ _ _).2
          ⟨overviewJoin_intro db sym hsy k hkf (some f0) (Or.inl ⟨f0, rfl, hf0⟩),
            ⟨hs, he⟩⟩, rfl⟩
      · refine ⟨(sym, some k, none), (mem_sqlFilter _ _ _).2
          ⟨overviewJoin_intro db sym hsy k hkf none (Or.inr ⟨rfl, hfs⟩), ⟨hs, he⟩⟩, rfl⟩
  · intro row hrow
    have h2 := (List.Perm.mem_iff (List.perm_insertionSort _ _)).1 hrow
    rcases List.mem_map.1 h2 with ⟨⟨k, g⟩, hkg, rfl⟩
    simp only
    rw [dedupFirst_length_card]
    congr 1
    ext x
    simp only [List.mem_toFinset, List.mem_filterMap, List.mem_map]
    constructor
    · rintro ⟨r, hr, hx⟩
      rcases Option.map_eq_some'.1 hx with ⟨f, hf, rfl⟩
      rcases (mem_groupBy _ _ _ _).1 hkg with ⟨_, rfl⟩
      rcases (mem_sqlFilter _ _ _).1 hr with ⟨hr2, hrk⟩
      rcases (mem_sqlFilter _ _ _).1 hr2 with ⟨hjoin, _⟩
      rcases r with ⟨sy, ko, fo⟩
      obtain ⟨_, _, hfpart⟩ := overviewJoin_parts db sy ko fo hjoin
      obtain ⟨hfmem, hfsym⟩ := hfpart f hf
      refine ⟨f, (mem_sqlFilter _ _ _).2 ⟨hfmem, ?_⟩, rfl⟩
      rw [hfsym, ← hrk]
    · rintro ⟨f0, hf0, rfl⟩
      rcases (mem_groupBy _ _ _ _).1 hkg with ⟨hkmem, hgdef⟩
      have hgne : g ≠ [] := groupBy_group_nonempty _ _ _ _ hkg
      rcases List.exists_mem_of_ne_nil g hgne with ⟨r0, hr0⟩
      have hr0g := hr0
      rw [hgdef] at hr0g
      rcases (mem_sqlFilter _ _ _).1 hr0g with ⟨hr0rows, hr0k⟩
      rcases (mem_sqlFilter _ _ _).1 hr0rows with ⟨hr0join, hr0range⟩
      rcases r0 with ⟨sy0, ko0, fo0⟩
      obtain ⟨hsy0, hkpart0, _⟩ := overviewJoin_parts db sy0 ko0 fo0 hr0join
      cases ko0 with
      | none => exact absurd hr0range (by simp [inRangeK])
      | some k1 =>
        obtain ⟨hk1mem, hk1sym⟩ := hkpart0 k1 rfl
        have hsy0k : sy0 = k := hr0k
        subst hsy0k
        have hf0k : f0 ∈ sqlFilter (fun f2 : FundingRow => f2.sym = sy0) db.funding := by
          rcases (mem_sqlFilter _ _ _).1 hf0 with ⟨hm, hsym2⟩
          exact (mem_sqlFilter _ _ _).2 ⟨hm, hsym2⟩
        have hjoin1 : (sy0, some k1, some f0) ∈ overviewJoin db :=
          overviewJoin_intro db sy0 hsy0 k1
            ((mem_sqlFilter _ _ _).2 ⟨hk1mem, hk1sym⟩) (some f0) (Or.inl ⟨f0, rfl, hf0k⟩)
        have hr1 : ((sy0, some k1, some f0) :
            String × Option KlineRow × Option FundingRow) ∈ g := by
          rw [hgdef]
          refine (mem_sqlFilter _ _ _).2 ⟨(mem_sqlFilter _ _ _).2 ⟨hjoin1, hr0range⟩, rfl⟩
        exact ⟨(sy0, some k1, some f0), hr1, rfl⟩

/-- The C10 witness dataset: symbol A has one kline inside the range
[0, 1000] and one outside it, plus two funding events of which one lies
far outside the range. -/
def c10Db : Db :=
  { symbols := ["A"]
    funding := [⟨"A", 100, 1 / 10000⟩, ⟨"A", 9999, 2 / 10000⟩]
    minuteReturns := []
    openInterest := []
    klines :=
      [⟨"A", 5, 1, 1, 1, 1, 50, 3⟩, ⟨"A", 5000, 1, 1, 1, 1, 70, 4⟩] }

theorem c10_witness :
    ((∃ row ∈ symbolOverview c10Db 0 1000, row.sym = "A") ↔
      ("A" ∈ c10Db.symbols ∧
        ∃ k ∈ c10Db.klines, k.sym = "A" ∧ 0 ≤ k.openTime ∧ k.openTime ≤ 1000)) ∧
    (⟨"A", 1, 2, 50⟩ : OverviewRow).nFundingEvents =
      ((sqlFilter (fun f : FundingRow => f.sym = (⟨"A", 1, 2, 50⟩ : OverviewRow).sym)
        c10Db.funding).map (fun f => f.ts)).toFinset.card := by
  refine ⟨(c10_theorem c10Db 0 1000 "A").1, ?_⟩
  refine (c10_theorem c10Db 0 1000 "A").2 _ ?_
  norm_num [symbolOverview, overviewJoin, sqlFilter, groupBy, dedupFirst, inRangeK,
    avgQ, List.insertionSort, List.orderedInsert, c10Db, List.filterMap_cons]
